import Mathlib

/-!
# yext-sdk: the entity accessors and the error model with its textual codec

A shallow embedding of `entity.go` and `error.go`.

* A Go `string` is a list of characters (`Str`).  Every separator and cutset the
  program uses is ASCII, where Go's byte-wise and rune-wise behaviour agree.
* A Go `int` is a Lean `Int`; the 64-bit range is an explicit hypothesis where it
  matters (parsing a rendered code back).
* A `*Error` is an `Option Error` (`none` is the nil pointer) and a function that
  dereferences a pointer, asserts a dynamic type or calls a method on an interface
  returns `Except Panic _`.
* A Go result pair `(value, error)` stays a pair: the second component is `none`
  for a nil error.
-/

namespace Yext

set_option linter.dupNamespace false

/-- A Go string. -/
abbrev Str := List Char

/-! ## The parts of the Go standard library the program calls -/

/-- The scan behind `strings.Split` for a non-empty separator: the piece up to the
next leftmost separator, and the pieces after it.  `skip` counts the characters of
a separator just matched that are still to be stepped over. -/
def splitFrom (sep : Str) : Str → Nat → Str × List Str
  | [], _ => ([], [])
  | _ :: cs, skip + 1 => splitFrom sep cs skip
  | c :: cs, 0 =>
    if sep.isPrefixOf (c :: cs) then
      ([], (splitFrom sep cs (sep.length - 1)).1 :: (splitFrom sep cs (sep.length - 1)).2)
    else
      (c :: (splitFrom sep cs 0).1, (splitFrom sep cs 0).2)

/-- Go `strings.Split(s, sep)` for a non-empty `sep`: the pieces between the
leftmost non-overlapping occurrences of `sep`; always at least one piece. -/
def Split (s sep : Str) : List Str :=
  (splitFrom sep s 0).1 :: (splitFrom sep s 0).2

/-- Go `strings.Join(elems, sep)`. -/
def Join : List Str → Str → Str
  | [], _ => []
  | [a], _ => a
  | a :: b :: rest, sep => a ++ sep ++ Join (b :: rest) sep

/-- Go `strings.TrimLeft(s, cutset)`: drops every leading character that occurs in
`cutset` (a set of characters, not a literal to strip once). -/
def TrimLeft (s cutset : Str) : Str :=
  s.dropWhile (fun c => cutset.elem c)

/-- Go `strings.Contains(s, substr)`. -/
def Contains : Str → Str → Bool
  | [], sub => sub.isPrefixOf []
  | c :: cs, sub => sub.isPrefixOf (c :: cs) || Contains cs sub

/-- The two failures of package `strconv`. -/
inductive NumErrKind
  | ErrSyntaxKind
  | ErrRangeKind
  deriving DecidableEq, Repr

/-- Go `*strconv.NumError`: the function that failed, its input and the cause. -/
structure NumError where
  Func : Str
  Num : Str
  Err : NumErrKind
  deriving DecidableEq, Repr

/-- The value of a decimal digit, `none` for any other character. -/
def digitVal (c : Char) : Option Nat :=
  if 48 ≤ c.toNat ∧ c.toNat ≤ 57 then some (c.toNat - 48) else none

/-- The digit loop of `strconv.ParseUint(s, 10, 64)` on the remaining characters,
with the value read so far in `n`.  `cutoff` is `maxUint64/10 + 1`; the sum is
taken modulo `2^64` as on the machine. -/
def parseUintLoop : Str → Nat → Except NumErrKind Nat
  | [], n => .ok n
  | c :: cs, n =>
    match digitVal c with
    | none => .error .ErrSyntaxKind
    | some d =>
      if n ≥ (2 ^ 64 - 1) / 10 + 1 then .error .ErrRangeKind
      else
        let n10 := (n * 10) % 2 ^ 64
        let n1 := (n10 + d) % 2 ^ 64
        if n1 < n10 ∨ n1 > 2 ^ 64 - 1 then .error .ErrRangeKind
        else parseUintLoop cs n1

/-- Go `strconv.ParseUint(s, 10, 64)`, with the cause of a failure only. -/
def ParseUint (s : Str) : Except NumErrKind Nat :=
  if s = [] then .error .ErrSyntaxKind else parseUintLoop s 0

/-- Go `strconv.Atoi(s)` on a 64-bit platform: `ParseInt(s, 10, 0)` with the
failure relabelled `Atoi` (the fast path for short inputs returns the same). -/
def Atoi (s : Str) : Except NumError Int :=
  if s = [] then .error ⟨"Atoi".toList, s, .ErrSyntaxKind⟩
  else
    let neg := s.head? = some '-'
    let body := if s.head? = some '+' ∨ s.head? = some '-' then s.tail else s
    match ParseUint body with
    | .error k => .error ⟨"Atoi".toList, s, k⟩
    | .ok un =>
      if ¬ neg ∧ un ≥ 2 ^ 63 then .error ⟨"Atoi".toList, s, .ErrRangeKind⟩
      else if neg ∧ un > 2 ^ 63 then .error ⟨"Atoi".toList, s, .ErrRangeKind⟩
      else .ok (if neg then -(un : Int) else (un : Int))

/-- The `%d` verb of `fmt.Sprintf` for an `int`: base 10, a minus sign for a
negative value. -/
def FormatInt (n : Int) : Str :=
  if n < 0 then '-' :: Nat.toDigits 10 n.natAbs else Nat.toDigits 10 n.natAbs

/-! ## error.go -/

def ErrorTypeFatal : Str := "FATAL_ERROR".toList
def ErrorTypeNonFatal : Str := "NON_FATAL_ERROR".toList
def ErrorTypeWarning : Str := "WARNING".toList

/-- Go `type Error struct`; the field `Type` is `Typ` here. -/
structure Error where
  Message : Str
  Code : Int
  Typ : Str
  RequestUUID : Str
  deriving DecidableEq, Repr

/-- Go `func (e Error) Error() string`. -/
def Error.Error (e : Yext.Error) : Str :=
  "type: ".toList ++ e.Typ ++ " code: ".toList ++ FormatInt e.Code ++ " message: ".toList
    ++ e.Message ++ ", request uuid: ".toList ++ e.RequestUUID

/-- Go `func (e Error) ErrorWithoutUUID() string`. -/
def Error.ErrorWithoutUUID (e : Yext.Error) : Str :=
  "type: ".toList ++ e.Typ ++ " code: ".toList ++ FormatInt e.Code ++ " message: ".toList
    ++ e.Message

/-- Go `func (e Error) IsError() bool`. -/
def Error.IsError (e : Yext.Error) : Bool :=
  e.Typ == ErrorTypeFatal || e.Typ == ErrorTypeNonFatal

/-- Go `func (e Error) IsWarning() bool`. -/
def Error.IsWarning (e : Yext.Error) : Bool :=
  e.Typ == ErrorTypeWarning

/-- Go `type Errors []*Error`: a slice of pointers, `none` being a nil pointer. -/
abbrev Errors := List (Option Error)

/-- A run-time panic. -/
inductive Panic
  | nilDereference
  | typeAssertion
  deriving DecidableEq, Repr

/-- The loop of `Errors.Error`: `errs` collects the renderings, `uuid` keeps the
request id of the member seen last. -/
def Errors.ErrorLoop : Yext.Errors → List Str → Str → Except Panic (List Str × Str)
  | [], errs, uuid => .ok (errs, uuid)
  | none :: _, _, _ => .error .nilDereference
  | some err :: rest, errs, _ =>
    Errors.ErrorLoop rest (errs ++ [err.ErrorWithoutUUID]) err.RequestUUID

/-- Go `func (e Errors) Error() string`. -/
def Errors.Error (e : Yext.Errors) : Except Panic Str :=
  match Errors.ErrorLoop e [] [] with
  | .error p => .error p
  | .ok (errs, uuid) => .ok (Join errs "; ".toList ++ "; request uuid: ".toList ++ uuid)

/-- The loop of `Errors.Errors`, with the slice built so far. -/
def Errors.ErrorsLoop : Yext.Errors → Yext.Errors → Except Panic Yext.Errors
  | [], errors => .ok errors
  | none :: _, _ => .error .nilDereference
  | some err :: rest, errors =>
    Errors.ErrorsLoop rest (if err.IsError then errors ++ [some err] else errors)

/-- Go `func (e Errors) Errors() []*Error`. -/
def Errors.Errors (e : Yext.Errors) : Except Panic Yext.Errors :=
  Errors.ErrorsLoop e []

/-- The loop of `Errors.Warnings`, with the slice built so far. -/
def Errors.WarningsLoop : Yext.Errors → Yext.Errors → Except Panic Yext.Errors
  | [], warnings => .ok warnings
  | none :: _, _ => .error .nilDereference
  | some err :: rest, warnings =>
    Errors.WarningsLoop rest (if err.IsWarning then warnings ++ [some err] else warnings)

/-- Go `func (e Errors) Warnings() []*Error`. -/
def Errors.Warnings (e : Yext.Errors) : Except Panic Yext.Errors :=
  Errors.WarningsLoop e []

/-- A value of the Go interface `error`, by its dynamic type. -/
inductive GoError
  /-- the nil interface value -/
  | nil
  /-- dynamic type `Errors` -/
  | errors (e : Errors)
  /-- dynamic type `*Error` -/
  | errorPtr (e : Option Error)
  /-- dynamic type `Error` -/
  | errorVal (e : Error)
  /-- any other dynamic type, with what its `Error()` method returns -/
  | foreign (msg : Str)
  deriving DecidableEq, Repr

/-- How deep the classification functions recurse on a value: once into the
members of a list. -/
def GoError.depth : GoError → Nat
  | .errors _ => 1
  | _ => 0

/-- Go `func GetNumErrors(err error) int`. -/
def GetNumErrors : GoError → Except Panic Int
  | .nil => .ok 0
  | .errors e =>
    match Errors.Errors e with
    | .error p => .error p
    | .ok errors => .ok errors.length
  | .errorVal e => .ok (if e.IsError then 1 else 0)
  | _ => .ok 1

/-- Go `func ToUserFriendlyMessage(err error) string`. -/
def ToUserFriendlyMessage (err : GoError) : Except Panic Str :=
  match err with
  | .errors e =>
    e.foldlM (fun message innerError =>
      match ToUserFriendlyMessage (.errorPtr innerError) with
      | .error p => .error p
      | .ok inner =>
        .ok ((if message ≠ [] then message ++ ", ".toList else message) ++ inner)) []
  | .errorPtr none => .error .nilDereference
  | .errorPtr (some e) => .ok e.Message
  | .errorVal e => .ok e.Message
  | .foreign msg => .ok msg
  | .nil => .error .nilDereference
termination_by err.depth
decreasing_by simp [GoError.depth]

/-- Go `func IsNotFoundError(err error) bool`. -/
def IsNotFoundError (err : GoError) : Except Panic Bool :=
  match err with
  | .errors e => e.anyM (fun innerError => IsNotFoundError (.errorPtr innerError))
  | .errorPtr none => .error .nilDereference
  | .errorPtr (some e) => .ok (e.Code == 2000 || e.Code == 6004 || e.Code == 2238)
  | _ => .ok false
termination_by err.depth
decreasing_by simp [GoError.depth]

/-- Go `func IsBusinessError(err error) bool`. -/
def IsBusinessError (err : GoError) : Except Panic Bool :=
  match err with
  | .errors e => e.anyM (fun innerError => IsBusinessError (.errorPtr innerError))
  | .errorPtr _ => .ok true
  | _ => .ok false
termination_by err.depth
decreasing_by simp [GoError.depth]

/-- Go `func IsFatalBusinessError(err error) bool`. -/
def IsFatalBusinessError (err : GoError) : Except Panic Bool :=
  match err with
  | .errors e => e.anyM (fun innerError => IsFatalBusinessError (.errorPtr innerError))
  | .errorPtr none => .error .nilDereference
  | .errorPtr (some e) => .ok (e.Typ == ErrorTypeFatal)
  | _ => .ok false
termination_by err.depth
decreasing_by simp [GoError.depth]

/-- Go `func IsErrorCode(err error, code int) bool`. -/
def IsErrorCode (err : GoError) (code : Int) : Except Panic Bool :=
  match err with
  | .errors e => e.anyM (fun innerError => IsErrorCode (.errorPtr innerError) code)
  | .errorPtr none => .error .nilDereference
  | .errorPtr (some e) => .ok (e.Code == code)
  | _ => .ok false
termination_by err.depth
decreasing_by simp [GoError.depth]

/-- The state of the loop of `splitStrAtWord`. -/
structure SplitState where
  found : Bool
  before : Str
  after : Str
  deriving DecidableEq, Repr

/-- One iteration of the loop of `splitStrAtWord` on the word `w`. -/
def splitStep (word : Str) (st : SplitState) (w : Str) : SplitState :=
  if w = word then { st with found := true }
  else if st.found then
    { st with after := (if st.after ≠ [] then st.after ++ " ".toList else st.after) ++ w }
  else
    { st with before := (if st.before ≠ [] then st.before ++ " ".toList else st.before) ++ w }

/-- Go `func splitStrAtWord(str string, word string) (string, string)`. -/
def splitStrAtWord (str word : Str) : Str × Str :=
  let words := Split str " ".toList
  let st := words.foldl (splitStep word) ⟨false, [], []⟩
  (st.before, st.after)

/-- Go `func errorFromString(str string) (*Error, error)`; the request id of the
record is still empty. -/
def errorFromString (str : Str) : Except NumError Error :=
  let strRemaining := TrimLeft str "type: ".toList
  let typ := (splitStrAtWord strRemaining "code:".toList).1
  let strRemaining := (splitStrAtWord strRemaining "code:".toList).2
  let code := (splitStrAtWord strRemaining "message:".toList).1
  let message := (splitStrAtWord strRemaining "message:".toList).2
  match Atoi code with
  | .error errConv => .error errConv
  | .ok codeInt => .ok { Typ := typ, Code := codeInt, Message := message, RequestUUID := [] }

/-- The loop of `ErrorsFromString` over the segments before the last one. -/
def ErrorsFromStringLoop (uuid : Str) : List Str → Errors → Errors × Option NumError
  | [], errors => (errors, none)
  | seg :: rest, errors =>
    match errorFromString seg with
    | .error err => ([], some err)
    | .ok errObj =>
      ErrorsFromStringLoop uuid rest (errors ++ [some { errObj with RequestUUID := uuid }])

/-- Go `func ErrorsFromString(errorStr string) ([]*Error, error)`. -/
def ErrorsFromString (errorStr : Str) : Errors × Option NumError :=
  let errStrList := Split errorStr "; ".toList
  let uuid := TrimLeft (errStrList.getLastD []) "request uuid: ".toList
  ErrorsFromStringLoop uuid errStrList.dropLast []

/-! ## entity.go -/

/-- Go `type EntityType string`. -/
abbrev EntityType := Str

/-- Go `type EntityMeta struct`; a pointer field is an `Option`.
Modelled from the spec: the type `UnorderedStrings` of `LabelIds` is declared
outside these sources; the spec calls it a set of label identifiers, kept here as
the list of its members. -/
structure EntityMeta where
  Id : Option Str
  AccountId : Option Str
  EntityType : EntityType
  FolderId : Option Str
  LabelIds : Option (List Str)
  CategoryIds : Option (List Str)
  Language : Option Str
  CountryCode : Option Str
  deriving DecidableEq, Repr

/-- Go `type BaseEntity struct`. -/
structure BaseEntity where
  Meta : Option EntityMeta
  nilIsEmpty : Bool
  deriving DecidableEq, Repr

/-- Go `func (b *BaseEntity) GetEntityId() string`; `none` is a nil receiver. -/
def BaseEntity.GetEntityId (b : Option BaseEntity) : Except Panic Str :=
  match b with
  | none => .error .nilDereference
  | some b =>
    match b.Meta with
    | some m =>
      match m.Id with
      | some id => .ok id
      | none => .ok []
    | none => .ok []

/-- Go `func (b *BaseEntity) GetEntityType() EntityType`. -/
def BaseEntity.GetEntityType (b : Option BaseEntity) : Except Panic EntityType :=
  match b with
  | none => .error .nilDereference
  | some b =>
    match b.Meta with
    | some m => .ok m.EntityType
    | none => .ok []

/-- Go `func (b *BaseEntity) GetNilIsEmpty() bool`. -/
def BaseEntity.GetNilIsEmpty (b : Option BaseEntity) : Except Panic Bool :=
  match b with
  | none => .error .nilDereference
  | some b => .ok b.nilIsEmpty

/-- Go `func (b *BaseEntity) SetNilIsEmpty(val bool)`: the entity after the call. -/
def BaseEntity.SetNilIsEmpty (b : Option BaseEntity) (val : Bool) : Except Panic BaseEntity :=
  match b with
  | none => .error .nilDereference
  | some b => .ok { b with nilIsEmpty := val }

/-- A value of the Go type `interface{}`, by its dynamic type: nil, a `string`, a
`map[string]interface{}` (its bindings, the first one for a key being the one
looked up), or a value of any other type (named). -/
inductive Any
  | nil
  | string (s : Str)
  | mapStringAny (m : List (Str × Any))
  | other (typeName : Str)

instance : Inhabited Any := ⟨Any.nil⟩

/-- Go `type RawEntity map[string]interface{}`. -/
abbrev RawEntity := List (Str × Any)

/-- Go `func (r *RawEntity) GetEntityId() string`; `none` is a nil receiver. -/
def RawEntity.GetEntityId (r : Option RawEntity) : Except Panic Str :=
  match r with
  | none => .error .nilDereference
  | some r =>
    match r.lookup "meta".toList with
    | some m =>
      match m with
      | .mapStringAny metaMap =>
        match metaMap.lookup "id".toList with
        | some id =>
          match id with
          | .string s => .ok s
          | _ => .error .typeAssertion
        | none => .ok []
      | _ => .error .typeAssertion
    | none => .ok []

/-- Go `func (r *RawEntity) GetEntityType() EntityType`. -/
def RawEntity.GetEntityType (r : Option RawEntity) : Except Panic EntityType :=
  match r with
  | none => .error .nilDereference
  | some r =>
    match r.lookup "meta".toList with
    | some m =>
      match m with
      | .mapStringAny metaMap =>
        match metaMap.lookup "entityType".toList with
        | some t =>
          match t with
          | .string s => .ok s
          | _ => .error .typeAssertion
        | none => .ok []
      | _ => .error .typeAssertion
    | none => .ok []

/-! ## Notions used to state the properties -/

/-- No semicolon of the string is followed by a space. -/
def NoSemiSpace (s : Str) : Prop :=
  List.Chain' (fun x y => ¬ (x = ';' ∧ y = ' ')) s

/-- What the loop of `splitStrAtWord` does to the part it is collecting: the word,
after a space unless the part is empty. -/
def addWord (acc w : Str) : Str :=
  (if acc ≠ [] then acc ++ " ".toList else acc) ++ w

/-- Every character is a decimal digit. -/
def AllDigits (ds : Str) : Prop := ∀ c ∈ ds, 48 ≤ c.toNat ∧ c.toNat ≤ 57

/-- The number a string of decimal digits stands for, read after the value `acc`. -/
def digitsValue (ds : Str) (acc : Nat) : Nat :=
  ds.foldl (fun a c => a * 10 + (c.toNat - 48)) acc

/-- A kind that the decoder reads back from a rendering: it does not start with
a character of the cutset "type: ", no semicolon in it is followed by a space
(nor is its last character one, since a space follows the kind in a rendering),
and none of its words is "code:". -/
def KindReadable (k : Str) : Prop :=
  (∀ c, k.head? = some c → c ∉ "type: ".toList)
    ∧ Contains (k ++ " ".toList) "; ".toList = false
    ∧ "code:".toList ∉ Split k " ".toList

/-- A message that the decoder reads back from a rendering: it holds no "; ", does
not start with a space, and none of its words is "code:" or "message:". -/
def MessageReadable (m : Str) : Prop :=
  Contains m "; ".toList = false
    ∧ m.head? ≠ some ' '
    ∧ "code:".toList ∉ Split m " ".toList
    ∧ "message:".toList ∉ Split m " ".toList

/-- A request id that the decoder reads back from a rendering: it holds no "; "
and does not start with a character of the cutset "request uuid: ". -/
def RequestIdReadable (u : Str) : Prop :=
  Contains u "; ".toList = false ∧ ∀ c, u.head? = some c → c ∉ "request uuid: ".toList

instance (k : Str) : Decidable (KindReadable k) := by
  unfold KindReadable; infer_instance

instance (m : Str) : Decidable (MessageReadable m) := by
  unfold MessageReadable; infer_instance

instance (u : Str) : Decidable (RequestIdReadable u) := by
  unfold RequestIdReadable; infer_instance

/-- The text of one record in a rendering, with the code as it is written. -/
def segmentText (kind code message : Str) : Str :=
  "type: ".toList ++ kind ++ " code: ".toList ++ code ++ " message: ".toList ++ message

/-- The code part of a segment as `errorFromString` cuts it out: the words between
the marker words "code:" and "message:". -/
def codePart (seg : Str) : Str :=
  (splitStrAtWord (splitStrAtWord (TrimLeft seg "type: ".toList) "code:".toList).2
    "message:".toList).1

/-- The failure of `strconv.Atoi` on the code part of a segment, `none` when the
code part parses. -/
def parseFailure (seg : Str) : Option NumError :=
  match Atoi (codePart seg) with
  | .error err => some err
  | .ok _ => none

/-! ## Lemmas on the loops of the classification functions -/

theorem anyM_map_some (f : Option Error → Except Panic Bool) (p : Error → Bool)
    (h : ∀ e, f (some e) = .ok (p e)) (es : List Error) :
    (es.map some).anyM f = .ok (es.any p) := by
  induction es with
  | nil => rfl
  | cons e es ih =>
    simp only [List.map_cons, List.anyM, h, List.any_cons, bind, Except.bind]
    cases p e
    · simpa using ih
    · rfl

theorem IsNotFoundError_ptr (e : Error) :
    IsNotFoundError (.errorPtr (some e))
      = .ok (e.Code == 2000 || e.Code == 6004 || e.Code == 2238) := by
  rw [IsNotFoundError]

theorem IsNotFoundError_errors (e : Errors) :
    IsNotFoundError (.errors e)
      = e.anyM (fun innerError => IsNotFoundError (.errorPtr innerError)) := by
  rw [IsNotFoundError]

/-- C3: on a record held by pointer `IsNotFoundError` is true exactly when the
code is 2000, 6004 or 2238; on a list of records exactly when some member has one
of these codes, a result that is computed from the members' codes alone; on the
empty list it is false. -/
theorem IsNotFoundError_spec (e : Error) (es : List Error) :
    IsNotFoundError (.errorPtr (some e))
        = .ok (decide (e.Code = 2000 ∨ e.Code = 6004 ∨ e.Code = 2238))
    ∧ IsNotFoundError (.errors (es.map some))
        = .ok (decide (∃ m ∈ es, m.Code = 2000 ∨ m.Code = 6004 ∨ m.Code = 2238))
    ∧ IsNotFoundError (.errors (es.map some))
        = .ok ((es.map Error.Code).any (fun c => decide (c = 2000 ∨ c = 6004 ∨ c = 2238)))
    ∧ IsNotFoundError (.errors []) = .ok false := by
  refine ⟨?_, ?_, ?_, ?_⟩
  · rw [IsNotFoundError_ptr]; congr 1; rw [Bool.eq_iff_iff]; simp [or_assoc]
  · rw [IsNotFoundError_errors,
      anyM_map_some _ (fun m => m.Code == 2000 || m.Code == 6004 || m.Code == 2238)
        IsNotFoundError_ptr]
    congr 1
    rw [Bool.eq_iff_iff]
    simp [List.any_eq_true, or_assoc]
  · rw [IsNotFoundError_errors,
      anyM_map_some _ (fun m => m.Code == 2000 || m.Code == 6004 || m.Code == 2238)
        IsNotFoundError_ptr]
    congr 1
    rw [Bool.eq_iff_iff]
    simp [List.any_eq_true, or_assoc]
  · rw [IsNotFoundError_errors]; rfl

theorem ErrorsLoop_map_some (es : List Error) (acc : Errors) :
    Errors.ErrorsLoop (es.map some) acc
      = .ok (acc ++ (es.filter Error.IsError).map some) := by
  induction es generalizing acc with
  | nil => simp [Errors.ErrorsLoop]
  | cons e es ih =>
    simp only [List.map_cons, Errors.ErrorsLoop, ih, List.filter_cons]
    cases e.IsError <;> simp

theorem Errors_map_some (es : List Error) :
    Errors.Errors (es.map some) = .ok ((es.filter Error.IsError).map some) := by
  simp [Errors.Errors, ErrorsLoop_map_some]

/-- C4: `GetNumErrors` is 0 for the nil error; for a list of records it is the
number of members whose `IsError()` is true, which is the length of
`list.Errors()`, so 0 for the empty list and for a list of warnings only; for a
record passed by value it is 1 if `IsError()` and 0 otherwise; for a foreign error
value it is 1. -/
theorem GetNumErrors_spec (es : List Error) (e : Error) (msg : Str) :
    GetNumErrors .nil = .ok 0
    ∧ GetNumErrors (.errors (es.map some)) = .ok ((es.filter Error.IsError).length : Int)
    ∧ (∃ l, Errors.Errors (es.map some) = .ok l
        ∧ GetNumErrors (.errors (es.map some)) = .ok (l.length : Int))
    ∧ GetNumErrors (.errors []) = .ok 0
    ∧ ((∀ w ∈ es, w.IsWarning = true) → GetNumErrors (.errors (es.map some)) = .ok 0)
    ∧ GetNumErrors (.errorVal e) = .ok (if e.IsError = true then 1 else 0)
    ∧ GetNumErrors (.foreign msg) = .ok 1 := by
  have hlist : GetNumErrors (.errors (es.map some))
      = .ok ((es.filter Error.IsError).length : Int) := by
    simp [GetNumErrors, Errors_map_some]
  refine ⟨rfl, hlist, ⟨_, Errors_map_some es, ?_⟩, rfl, ?_, rfl, rfl⟩
  · simp [GetNumErrors, Errors_map_some]
  · intro hw
    rw [hlist]
    have : es.filter Error.IsError = [] := by
      rw [List.filter_eq_nil_iff]
      intro w hmem
      have h1 := hw w hmem
      simp only [Error.IsWarning, beq_iff_eq] at h1
      simp [Error.IsError, h1, ErrorTypeWarning, ErrorTypeFatal, ErrorTypeNonFatal]
    simp [this]

/-- The text after the first element of `strings.Join`: every further element
preceded by the separator. -/
theorem Join_cons (sep a : Str) (rest : List Str) :
    Join (a :: rest) sep = a ++ (rest.map (fun w => sep ++ w)).flatten := by
  induction rest generalizing a with
  | nil => simp [Join]
  | cons b rest ih => simp [Join, ih]

theorem ToUserFriendlyMessage_ptr (e : Error) :
    ToUserFriendlyMessage (.errorPtr (some e)) = .ok e.Message := by
  rw [ToUserFriendlyMessage]

theorem ToUserFriendlyMessage_errors (e : Errors) :
    ToUserFriendlyMessage (.errors e)
      = e.foldlM (fun message innerError =>
          match ToUserFriendlyMessage (.errorPtr innerError) with
          | .error p => .error p
          | .ok inner =>
            .ok ((if message ≠ [] then message ++ ", ".toList else message) ++ inner)) [] := by
  rw [ToUserFriendlyMessage]

/-- The loop of `ToUserFriendlyMessage` on a list of records, once the text built
so far is not empty: every further message is appended after a separator. -/
theorem friendly_loop_nonempty (es : List Error) (acc : Str) (hacc : acc ≠ []) :
    (es.map some).foldlM (fun message innerError =>
          match ToUserFriendlyMessage (.errorPtr innerError) with
          | .error p => (Except.error p : Except Panic Str)
          | .ok inner =>
            .ok ((if message ≠ [] then message ++ ", ".toList else message) ++ inner)) acc
      = .ok (acc ++ ((es.map Error.Message).map (fun w => ", ".toList ++ w)).flatten) := by
  induction es generalizing acc with
  | nil => simp [pure, Except.pure]
  | cons e es ih =>
    simp only [List.map_cons, List.foldlM, ToUserFriendlyMessage_ptr, bind, Except.bind]
    rw [if_pos hacc, ih _ (by simp [hacc])]
    simp

/-- The loop of `ToUserFriendlyMessage` on a list of records from the empty text:
the messages joined, the leading empty ones left out. -/
theorem friendly_loop_empty (es : List Error) :
    (es.map some).foldlM (fun message innerError =>
          match ToUserFriendlyMessage (.errorPtr innerError) with
          | .error p => (Except.error p : Except Panic Str)
          | .ok inner =>
            .ok ((if message ≠ [] then message ++ ", ".toList else message) ++ inner)) []
      = .ok (Join ((es.map Error.Message).dropWhile (fun m => decide (m = []))) ", ".toList) := by
  induction es with
  | nil => simp [pure, Except.pure, Join]
  | cons e es ih =>
    simp only [List.map_cons, List.foldlM, ToUserFriendlyMessage_ptr, bind, Except.bind]
    by_cases hm : e.Message = []
    · simp only [hm, ne_eq, not_true_eq_false, if_false, List.append_nil, List.dropWhile_cons,
        decide_True, if_true]
      exact ih
    · have h1 : (if ([] : Str) ≠ [] then ([] : Str) ++ ", ".toList else []) ++ e.Message
          = e.Message := by simp
      rw [h1, friendly_loop_nonempty es _ hm]
      simp [List.dropWhile_cons, hm, Join_cons]

/-- C5, the claim as stated fails: on the records with messages "" and "a" the
result is "a", while the two messages joined with ", " are ", a". -/
theorem ToUserFriendlyMessage_empty_message_counterexample :
    ToUserFriendlyMessage (.errors
        [some ⟨[], 0, ErrorTypeNonFatal, []⟩, some ⟨"a".toList, 0, ErrorTypeNonFatal, []⟩])
      = .ok "a".toList
    ∧ Join [[], "a".toList] ", ".toList = ", a".toList := by
  constructor
  · rw [ToUserFriendlyMessage_errors]
    exact friendly_loop_empty [⟨[], 0, ErrorTypeNonFatal, []⟩, ⟨"a".toList, 0, ErrorTypeNonFatal, []⟩]
  · rfl

/-- C5 as amended: on a list of records the result is the members' messages in
list order joined with ", ", the empty messages before the first non-empty one
left out (no separator is written while the text built so far is empty), so it
is the join of all the messages when none is empty; on a record, by value or by
pointer, it is the message; on a foreign error value it is that value's
rendering. -/
theorem ToUserFriendlyMessage_spec (es : List Error) (e : Error) (msg : Str) :
    ToUserFriendlyMessage (.errors (es.map some))
        = .ok (Join ((es.map Error.Message).dropWhile (fun m => decide (m = []))) ", ".toList)
    ∧ ((∀ m ∈ es, m.Message ≠ []) →
        ToUserFriendlyMessage (.errors (es.map some))
          = .ok (Join (es.map Error.Message) ", ".toList))
    ∧ ToUserFriendlyMessage (.errorVal e) = .ok e.Message
    ∧ ToUserFriendlyMessage (.errorPtr (some e)) = .ok e.Message
    ∧ ToUserFriendlyMessage (.foreign msg) = .ok msg := by
  have hlist := friendly_loop_empty es
  rw [← ToUserFriendlyMessage_errors] at hlist
  refine ⟨hlist, ?_, ?_, ToUserFriendlyMessage_ptr e, ?_⟩
  · intro hne
    rw [hlist]
    cases es with
    | nil => rfl
    | cons a rest =>
      have := hne a (List.mem_cons_self _ _)
      simp [List.dropWhile_cons, this]
  · rw [ToUserFriendlyMessage]
  · rw [ToUserFriendlyMessage]

theorem ErrorLoop_map_some (es : List Error) (errs : List Str) (uuid : Str) :
    Errors.ErrorLoop (es.map some) errs uuid
      = .ok (errs ++ es.map Error.ErrorWithoutUUID,
          (es.getLast?.map Error.RequestUUID).getD uuid) := by
  induction es generalizing errs uuid with
  | nil => simp [Errors.ErrorLoop]
  | cons e es ih =>
    simp only [List.map_cons, Errors.ErrorLoop, ih]
    cases es with
    | nil => simp
    | cons b bs =>
      cases hl : (b :: bs).getLast? with
      | none => simp at hl
      | some x => simp [List.getLast?_cons_cons, hl]

theorem Errors_Error_map_some (es : List Error) :
    Errors.Error (es.map some)
      = .ok (Join (es.map Error.ErrorWithoutUUID) "; ".toList ++ "; request uuid: ".toList
          ++ (es.getLast?.map Error.RequestUUID).getD []) := by
  simp [Errors.Error, ErrorLoop_map_some]

/-- The `%d` rendering is Lean's decimal rendering of the integer. -/
theorem FormatInt_eq_toString (n : Int) : FormatInt n = (toString n).toList := by
  cases n with
  | ofNat m =>
    have h : ¬ ((m : Int) < 0) := by omega
    simp [FormatInt, h, toString, instToStringInt, Int.repr, Nat.repr, List.asString]
  | negSucc m =>
    have h : Int.negSucc m < 0 := Int.negSucc_lt_zero m
    simp [FormatInt, h, toString, instToStringInt, Int.repr, Nat.repr, Int.natAbs, List.asString]

/-- C6: `Errors.Error()` is the members' `ErrorWithoutUUID()` renderings joined in
list order with "; ", then "; request uuid: " and the request id of the last
member (the empty string for the empty list); a rendering is
`type: {kind} code: {code} message: {message}` with the code in base 10. -/
theorem Errors_Error_spec (es : List Error) (e : Error) :
    Errors.Error (es.map some)
        = .ok (Join (es.map Error.ErrorWithoutUUID) "; ".toList ++ "; request uuid: ".toList
            ++ (es.getLast?.map Error.RequestUUID).getD [])
    ∧ Errors.Error (es.map some ++ [some e])
        = .ok (Join (es.map Error.ErrorWithoutUUID ++ [e.ErrorWithoutUUID]) "; ".toList
            ++ "; request uuid: ".toList ++ e.RequestUUID)
    ∧ Errors.Error [] = .ok "; request uuid: ".toList
    ∧ e.ErrorWithoutUUID
        = "type: ".toList ++ e.Typ ++ " code: ".toList ++ (toString e.Code).toList
            ++ " message: ".toList ++ e.Message := by
  refine ⟨Errors_Error_map_some es, ?_, rfl, ?_⟩
  · have h := Errors_Error_map_some (es ++ [e])
    simpa using h
  · simp [Error.ErrorWithoutUUID, FormatInt_eq_toString]

/-- C9, the claim as stated fails: when "meta" holds a string, and when the
nested mapping holds a number under "id" or "entityType", the accessors panic on
the type assertion instead of returning an empty value. -/
theorem RawEntity_accessors_panic_counterexample :
    RawEntity.GetEntityId (some [("meta".toList, Any.string "x".toList)])
        = .error .typeAssertion
    ∧ RawEntity.GetEntityType (some [("meta".toList, Any.string "x".toList)])
        = .error .typeAssertion
    ∧ RawEntity.GetEntityId
          (some [("meta".toList, Any.mapStringAny [("id".toList, Any.other "float64".toList)])])
        = .error .typeAssertion
    ∧ RawEntity.GetEntityType
          (some [("meta".toList,
            Any.mapStringAny [("entityType".toList, Any.other "float64".toList)])])
        = .error .typeAssertion :=
  ⟨rfl, rfl, rfl, rfl⟩

/-- C9 as amended: for every RawEntity mapping, when the "meta" key is missing
both accessors return the empty value; when "meta" holds a nested string-keyed
mapping, an accessor returns the empty value if its sub-key ("id" /
"entityType") is missing and the stored string if the sub-key holds a string;
when "meta" holds anything else, or the sub-key holds a non-string, the accessor
panics on its type assertion. -/
theorem RawEntity_accessors_spec (r : RawEntity) (m : List (Str × Any)) (s : Str) (v : Any) :
    (r.lookup "meta".toList = none →
        RawEntity.GetEntityId (some r) = .ok [] ∧ RawEntity.GetEntityType (some r) = .ok [])
    ∧ (r.lookup "meta".toList = some (.mapStringAny m) →
        (m.lookup "id".toList = none → RawEntity.GetEntityId (some r) = .ok [])
        ∧ (m.lookup "id".toList = some (.string s) → RawEntity.GetEntityId (some r) = .ok s)
        ∧ (m.lookup "id".toList = some v → (∀ t, v ≠ .string t) →
            RawEntity.GetEntityId (some r) = .error .typeAssertion)
        ∧ (m.lookup "entityType".toList = none → RawEntity.GetEntityType (some r) = .ok [])
        ∧ (m.lookup "entityType".toList = some (.string s) →
            RawEntity.GetEntityType (some r) = .ok s)
        ∧ (m.lookup "entityType".toList = some v → (∀ t, v ≠ .string t) →
            RawEntity.GetEntityType (some r) = .error .typeAssertion))
    ∧ (r.lookup "meta".toList = some v → (∀ n, v ≠ .mapStringAny n) →
        RawEntity.GetEntityId (some r) = .error .typeAssertion
        ∧ RawEntity.GetEntityType (some r) = .error .typeAssertion) := by
  refine ⟨?_, ?_, ?_⟩
  · intro h
    simp only [RawEntity.GetEntityId, RawEntity.GetEntityType, h, and_self]
  · intro h
    refine ⟨?_, ?_, ?_, ?_, ?_, ?_⟩
    · intro h2; simp only [RawEntity.GetEntityId, h, h2]
    · intro h2; simp only [RawEntity.GetEntityId, h, h2]
    · intro h2 hv
      cases v with
      | string t => exact absurd rfl (hv t)
      | nil => simp only [RawEntity.GetEntityId, h, h2]
      | mapStringAny n => simp only [RawEntity.GetEntityId, h, h2]
      | other n => simp only [RawEntity.GetEntityId, h, h2]
    · intro h2; simp only [RawEntity.GetEntityType, h, h2]
    · intro h2; simp only [RawEntity.GetEntityType, h, h2]
    · intro h2 hv
      cases v with
      | string t => exact absurd rfl (hv t)
      | nil => simp only [RawEntity.GetEntityType, h, h2]
      | mapStringAny n => simp only [RawEntity.GetEntityType, h, h2]
      | other n => simp only [RawEntity.GetEntityType, h, h2]
  · intro h hv
    cases v with
    | mapStringAny n => exact absurd rfl (hv n)
    | nil => simp only [RawEntity.GetEntityId, RawEntity.GetEntityType, h, and_self]
    | string t => simp only [RawEntity.GetEntityId, RawEntity.GetEntityType, h, and_self]
    | other n => simp only [RawEntity.GetEntityId, RawEntity.GetEntityType, h, and_self]

/-- C10, the code at the failing input: on the nil error no branch of the type
switch matches and `err.Error()` is called on the nil interface, a panic. -/
theorem ToUserFriendlyMessage_nil_panics :
    ToUserFriendlyMessage .nil = .error .nilDereference := by
  rw [ToUserFriendlyMessage]

/-- On a foreign error, a record by value or by pointer and a list of records,
empty or not, `ToUserFriendlyMessage` returns a string. -/
theorem ToUserFriendlyMessage_returns (es : List Error) (e : Error) (msg : Str) :
    (∃ s, ToUserFriendlyMessage (.errors (es.map some)) = .ok s)
    ∧ (∃ s, ToUserFriendlyMessage (.errorVal e) = .ok s)
    ∧ (∃ s, ToUserFriendlyMessage (.errorPtr (some e)) = .ok s)
    ∧ (∃ s, ToUserFriendlyMessage (.foreign msg) = .ok s) := by
  have h := friendly_loop_empty es
  rw [← ToUserFriendlyMessage_errors] at h
  refine ⟨⟨_, h⟩, ⟨e.Message, ?_⟩, ⟨e.Message, ToUserFriendlyMessage_ptr e⟩, ⟨msg, ?_⟩⟩
  · rw [ToUserFriendlyMessage]
  · rw [ToUserFriendlyMessage]

/-! ## Lemmas on `strings.Split`, `strings.Join` and `strings.Contains` -/

theorem splitFrom_of_not_Contains (sep s : Str) (h : Contains s sep = false) :
    splitFrom sep s 0 = (s, []) := by
  induction s with
  | nil => rfl
  | cons c cs ih =>
    simp only [Contains, Bool.or_eq_false_iff] at h
    simp [splitFrom, h.1, ih h.2]

theorem Split_of_not_Contains (sep s : Str) (h : Contains s sep = false) :
    Split s sep = [s] := by
  simp [Split, splitFrom_of_not_Contains sep s h]

theorem Contains_semi_eq_false_iff (s : Str) :
    Contains s "; ".toList = false ↔ NoSemiSpace s := by
  induction s with
  | nil => simp [Contains, NoSemiSpace, List.isPrefixOf]
  | cons c cs ih =>
    cases cs with
    | nil =>
      simp [Contains, NoSemiSpace, List.isPrefixOf]
    | cons d ds =>
      have ih' : Contains (d :: ds) [';', ' '] = false ↔ NoSemiSpace (d :: ds) := by
        simpa using ih
      rw [show "; ".toList = [';', ' '] from rfl]
      unfold NoSemiSpace at ih' ⊢
      rw [List.chain'_cons, ← ih']
      simp only [Contains, List.isPrefixOf, Bool.or_eq_false_iff, Bool.and_eq_false_imp,
        beq_iff_eq, Bool.and_true]
      constructor
      · rintro ⟨h1, h2⟩
        exact ⟨fun ⟨hc, hd⟩ => by simp [hc, hd] at h1, h2⟩
      · rintro ⟨h1, h2⟩
        refine ⟨?_, h2⟩
        intro hc
        by_contra hd
        exact h1 ⟨hc.symm, (by simpa using hd : ' ' = d).symm⟩

theorem NoSemiSpace_of_not_mem (s : Str) (h : ';' ∉ s) : NoSemiSpace s := by
  unfold NoSemiSpace
  induction s with
  | nil => exact List.chain'_nil
  | cons c cs ih =>
    cases cs with
    | nil => exact List.chain'_singleton c
    | cons d ds =>
      rw [List.chain'_cons]
      refine ⟨fun hcd => h (by simp [hcd.1]), ih (fun hm => h (List.mem_cons_of_mem _ hm))⟩

theorem NoSemiSpace_append (a b : Str) (ha : NoSemiSpace a) (hb : NoSemiSpace b)
    (hab : a.getLast? ≠ some ';' ∨ b.head? ≠ some ' ') : NoSemiSpace (a ++ b) := by
  unfold NoSemiSpace at *
  rw [List.chain'_append]
  refine ⟨ha, hb, ?_⟩
  intro x hx y hy hxy
  rcases hab with h | h
  · exact h (by simpa [hxy.1] using hx)
  · exact h (by simpa [hxy.2] using hy)

theorem splitFrom_cons_zero (sep : Str) (c : Char) (cs : Str) :
    splitFrom sep (c :: cs) 0
      = if sep.isPrefixOf (c :: cs) then
          ([], (splitFrom sep cs (sep.length - 1)).1 :: (splitFrom sep cs (sep.length - 1)).2)
        else (c :: (splitFrom sep cs 0).1, (splitFrom sep cs 0).2) := rfl

theorem splitFrom_semi_append (seg rest : Str) (h : NoSemiSpace seg) :
    splitFrom [';', ' '] (seg ++ ';' :: ' ' :: rest) 0 = (seg, Split rest [';', ' ']) := by
  induction seg with
  | nil => simp [splitFrom, Split, List.isPrefixOf]
  | cons c cs ih =>
    have hcs : NoSemiSpace cs := by
      unfold NoSemiSpace at h ⊢
      exact h.tail
    have hno : List.isPrefixOf [';', ' '] (c :: (cs ++ ';' :: ' ' :: rest)) = false := by
      cases cs with
      | nil => simp [List.isPrefixOf]
      | cons d ds =>
        unfold NoSemiSpace at h
        rw [List.chain'_cons] at h
        have h1 := h.1
        simp only [List.isPrefixOf, List.cons_append, Bool.and_true, Bool.and_eq_false_imp,
          beq_iff_eq]
        intro hc
        by_contra hd
        exact h1 ⟨hc.symm, (by simpa using hd : ' ' = d).symm⟩
    rw [List.cons_append, splitFrom_cons_zero, hno, ih hcs]
    simp

/-- Splitting segments that are written one after the other, each followed by
"; ", and a last piece: the segments and the last piece come back. -/
theorem Split_segments (segs : List Str) (last : Str)
    (hsegs : ∀ s ∈ segs, NoSemiSpace s) (hlast : NoSemiSpace last) :
    Split (segs.foldr (fun seg acc => seg ++ ';' :: ' ' :: acc) last) [';', ' ']
      = segs ++ [last] := by
  induction segs with
  | nil =>
    simpa using Split_of_not_Contains _ _ ((Contains_semi_eq_false_iff last).2 hlast)
  | cons a rest ih =>
    have h1 := splitFrom_semi_append a (rest.foldr (fun seg acc => seg ++ ';' :: ' ' :: acc) last)
      (hsegs a (List.mem_cons_self _ _))
    have h2 := ih (fun s hs => hsegs s (List.mem_cons_of_mem _ hs))
    simp only [List.foldr_cons, Split, h1, List.cons_append, List.cons.injEq, true_and]
    exact h2

theorem Join_append_sep (segs : List Str) (sep last : Str) (hne : segs ≠ []) :
    Join segs sep ++ sep ++ last = segs.foldr (fun seg acc => seg ++ (sep ++ acc)) last := by
  induction segs with
  | nil => exact absurd rfl hne
  | cons a rest ih =>
    cases rest with
    | nil => simp [Join]
    | cons b bs =>
      have := ih (by simp)
      simp only [Join, List.foldr_cons, List.append_assoc] at this ⊢
      rw [this]

/-! ## Lemmas on the words of a string (`strings.Split(str, " ")`) -/

theorem splitFrom_space_cons (c : Char) (cs : Str) :
    splitFrom [' '] (c :: cs) 0
      = if c = ' ' then ([], Split cs [' '])
        else (c :: (splitFrom [' '] cs 0).1, (splitFrom [' '] cs 0).2) := by
  rw [splitFrom_cons_zero]
  by_cases h : c = ' '
  · simp [h, List.isPrefixOf, Split]
  · have : (' ' == c) = false := by
      rw [beq_eq_false_iff_ne]
      exact fun hc => h hc.symm
    simp [h, List.isPrefixOf, this]

theorem Split_space_nil : Split [] [' '] = [[]] := rfl

theorem Split_space_cons_space (cs : Str) : Split (' ' :: cs) [' '] = [] :: Split cs [' '] := by
  simp [Split, splitFrom_space_cons]

theorem Split_space_cons_other (c : Char) (cs : Str) (h : c ≠ ' ') :
    Split (c :: cs) [' ']
      = (c :: (splitFrom [' '] cs 0).1) :: (splitFrom [' '] cs 0).2 := by
  simp [Split, splitFrom_space_cons, h]

/-- The words of two strings written with one space between them. -/
theorem Split_space_append (a b : Str) :
    Split (a ++ ' ' :: b) [' '] = Split a [' '] ++ Split b [' '] := by
  induction a with
  | nil => simp [Split_space_cons_space, Split_space_nil]
  | cons c cs ih =>
    by_cases h : c = ' '
    · subst h
      simp [Split_space_cons_space, ih]
    · rw [List.cons_append, Split_space_cons_other _ _ h, Split_space_cons_other _ _ h]
      simp only [Split] at ih
      have h1 := congrArg List.head? ih
      have h2 := congrArg List.tail ih
      simp only [List.head?_cons, List.cons_append, Option.some.injEq, List.tail_cons] at h1 h2
      rw [h1, h2]
      simp [Split]

/-- A string without a space is its only word. -/
theorem Split_space_of_not_mem (a : Str) (h : ' ' ∉ a) : Split a [' '] = [a] := by
  induction a with
  | nil => rfl
  | cons c cs ih =>
    have hc : c ≠ ' ' := fun hc => h (by simp [hc])
    have hcs := ih (fun hm => h (List.mem_cons_of_mem _ hm))
    rw [Split_space_cons_other _ _ hc]
    simp only [Split, List.cons.injEq] at hcs
    simp [hcs.1, hcs.2]

/-- The words of a string joined with a space give the string back. -/
theorem Join_Split_space (s : Str) : Join (Split s [' ']) [' '] = s := by
  induction s with
  | nil => rfl
  | cons c cs ih =>
    by_cases h : c = ' '
    · subst h
      rw [Split_space_cons_space, Join_cons]
      rw [Split, Join_cons] at ih
      simp only [List.singleton_append] at ih
      simp only [Split, List.map_cons, List.flatten_cons, List.nil_append, List.singleton_append,
        List.cons_append]
      rw [ih]
    · rw [Split_space_cons_other _ _ h, Join_cons]
      rw [Split, Join_cons] at ih
      simp only [List.singleton_append] at ih
      simp only [List.singleton_append, List.cons_append, List.nil_append]
      rw [ih]

/-- The first word of a string that is not empty and does not start with a space
is not empty. -/
theorem Split_space_head_ne_nil (s : Str) (hne : s ≠ []) (h : s.head? ≠ some ' ') :
    (splitFrom [' '] s 0).1 ≠ [] := by
  cases s with
  | nil => exact absurd rfl hne
  | cons c cs =>
    have hc : c ≠ ' ' := fun hc => h (by simp [hc])
    simp [splitFrom_space_cons, hc]

/-! ## Lemmas on the loop of `splitStrAtWord` -/

theorem foldl_splitStep_before (word : Str) (ws : List Str) (b a : Str) (h : word ∉ ws) :
    ws.foldl (splitStep word) ⟨false, b, a⟩ = ⟨false, ws.foldl addWord b, a⟩ := by
  induction ws generalizing b with
  | nil => rfl
  | cons w ws ih =>
    have hw : w ≠ word := fun hw => h (by simp [hw])
    have hws : word ∉ ws := fun hm => h (List.mem_cons_of_mem _ hm)
    simp only [List.foldl_cons]
    rw [show splitStep word ⟨false, b, a⟩ w = ⟨false, addWord b w, a⟩ by
      simp [splitStep, hw, addWord]]
    exact ih _ hws

theorem foldl_splitStep_after (word : Str) (ws : List Str) (b a : Str) (h : word ∉ ws) :
    ws.foldl (splitStep word) ⟨true, b, a⟩ = ⟨true, b, ws.foldl addWord a⟩ := by
  induction ws generalizing a with
  | nil => rfl
  | cons w ws ih =>
    have hw : w ≠ word := fun hw => h (by simp [hw])
    have hws : word ∉ ws := fun hm => h (List.mem_cons_of_mem _ hm)
    simp only [List.foldl_cons]
    rw [show splitStep word ⟨true, b, a⟩ w = ⟨true, b, addWord a w⟩ by
      simp [splitStep, hw, addWord]]
    exact ih _ hws

/-- The loop of `splitStrAtWord` over words in which the marker occurs once. -/
theorem foldl_splitStep_marker (word : Str) (pre post : List Str)
    (hpre : word ∉ pre) (hpost : word ∉ post) :
    (pre ++ word :: post).foldl (splitStep word) ⟨false, [], []⟩
      = ⟨true, pre.foldl addWord [], post.foldl addWord []⟩ := by
  rw [List.foldl_append, foldl_splitStep_before word pre _ _ hpre, List.foldl_cons]
  rw [show splitStep word ⟨false, pre.foldl addWord [], []⟩ word
      = ⟨true, pre.foldl addWord [], []⟩ by simp [splitStep]]
  exact foldl_splitStep_after word post _ _ hpost

theorem foldl_addWord_of_ne_nil (ws : List Str) (acc : Str) (hacc : acc ≠ []) :
    ws.foldl addWord acc = acc ++ (ws.map (fun w => ' ' :: w)).flatten := by
  induction ws generalizing acc with
  | nil => simp
  | cons w ws ih =>
    have h1 : addWord acc w = acc ++ ' ' :: w := by simp [addWord, hacc]
    rw [List.foldl_cons, h1, ih _ (by simp [hacc])]
    simp

/-- Collecting the words of a string after a part that is not empty: the part, a
space, the string. -/
theorem foldl_addWord_Split (s acc : Str) (hacc : acc ≠ []) :
    (Split s [' ']).foldl addWord acc = acc ++ ' ' :: s := by
  rw [foldl_addWord_of_ne_nil _ _ hacc]
  have h := Join_Split_space s
  rw [Split, Join_cons] at h
  simp only [Split, List.map_cons, List.flatten_cons]
  have h2 : (List.map (fun w => [' '] ++ w) (splitFrom [' '] s 0).2)
      = (List.map (fun w => ' ' :: w) (splitFrom [' '] s 0).2) := by simp
  rw [h2] at h
  rw [List.cons_append, h]

/-- Collecting the words of a string that does not start with a space, from the
empty part: the string. -/
theorem foldl_addWord_Split_nil (s : Str) (h : s.head? ≠ some ' ') :
    (Split s [' ']).foldl addWord [] = s := by
  by_cases hne : s = []
  · subst hne; rfl
  · have hw := Split_space_head_ne_nil s hne h
    have hj := Join_Split_space s
    rw [Split, Join_cons] at hj
    have h2 : (List.map (fun w => [' '] ++ w) (splitFrom [' '] s 0).2)
        = (List.map (fun w => ' ' :: w) (splitFrom [' '] s 0).2) := by simp
    rw [h2] at hj
    rw [Split, List.foldl_cons]
    rw [show addWord [] (splitFrom [' '] s 0).1 = (splitFrom [' '] s 0).1 by simp [addWord]]
    rw [foldl_addWord_of_ne_nil _ _ hw, hj]

/-- `splitStrAtWord` on a string whose words hold the marker once: the words
before it and the words after it, each collected with single spaces. -/
theorem splitStrAtWord_marker (str word : Str) (pre post : List Str)
    (hsplit : Split str [' '] = pre ++ word :: post)
    (hpre : word ∉ pre) (hpost : word ∉ post) :
    splitStrAtWord str word = (pre.foldl addWord [], post.foldl addWord []) := by
  have h : Split str " ".toList = pre ++ word :: post := hsplit
  simp only [splitStrAtWord, h, foldl_splitStep_marker word pre post hpre hpost]

/-! ## Lemmas on `strconv.Atoi` and the `%d` rendering -/

theorem digitsValue_cons (c : Char) (cs : Str) (acc : Nat) :
    digitsValue (c :: cs) acc = digitsValue cs (acc * 10 + (c.toNat - 48)) := rfl

theorem digitsValue_append_singleton (ds : Str) (c : Char) (acc : Nat) :
    digitsValue (ds ++ [c]) acc = digitsValue ds acc * 10 + (c.toNat - 48) := by
  simp [digitsValue, List.foldl_append]

theorem le_digitsValue (ds : Str) (acc : Nat) : acc ≤ digitsValue ds acc := by
  induction ds generalizing acc with
  | nil => exact Nat.le_refl _
  | cons c cs ih =>
    rw [digitsValue_cons]
    have := ih (acc * 10 + (c.toNat - 48))
    omega

theorem parseUintLoop_of_AllDigits (ds : Str) (n : Nat) (hd : AllDigits ds)
    (hv : digitsValue ds n < 2 ^ 64) : parseUintLoop ds n = .ok (digitsValue ds n) := by
  induction ds generalizing n with
  | nil => rfl
  | cons c cs ih =>
    have hc := hd c (List.mem_cons_self _ _)
    have hcs : AllDigits cs := fun x hx => hd x (List.mem_cons_of_mem _ hx)
    rw [digitsValue_cons] at hv ⊢
    have hle := le_digitsValue cs (n * 10 + (c.toNat - 48))
    have hdv : digitVal c = some (c.toNat - 48) := by simp [digitVal, hc]
    have h64 : (2 : Nat) ^ 64 = 18446744073709551616 := by norm_num
    rw [h64] at hv
    have hn : ¬ (n ≥ (2 ^ 64 - 1) / 10 + 1) := by
      rw [h64]; norm_num; omega
    have h1 : (n * 10) % 2 ^ 64 = n * 10 := Nat.mod_eq_of_lt (by rw [h64]; omega)
    have h2 : (n * 10 + (c.toNat - 48)) % 2 ^ 64 = n * 10 + (c.toNat - 48) :=
      Nat.mod_eq_of_lt (by rw [h64]; omega)
    have h3 : ¬ (n * 10 + (c.toNat - 48) < n * 10 ∨ n * 10 + (c.toNat - 48) > 2 ^ 64 - 1) := by
      rw [h64]; omega
    simp only [parseUintLoop, hdv, hn, if_false, h1, h2, h3]
    exact ih _ hcs (by rw [h64]; exact hv)

theorem AllDigits_of_parseUintLoop (ds : Str) (n v : Nat)
    (h : parseUintLoop ds n = .ok v) : AllDigits ds := by
  induction ds generalizing n with
  | nil => intro c hc; cases hc
  | cons c cs ih =>
    rw [parseUintLoop] at h
    cases hdv : digitVal c with
    | none => rw [hdv] at h; cases h
    | some d =>
      rw [hdv] at h
      simp only at h
      split at h
      · cases h
      · split at h
        · cases h
        · have hcs := ih _ h
          intro x hx
          rcases List.mem_cons.1 hx with rfl | hx
          · unfold digitVal at hdv
            split at hdv
            · assumption
            · cases hdv
          · exact hcs x hx

theorem digitChar_toNat (d : Nat) (h : d < 10) : (Nat.digitChar d).toNat = 48 + d := by
  interval_cases d <;> rfl

theorem toDigitsCore_append (f n : Nat) (ds : Str) :
    Nat.toDigitsCore 10 f n ds = Nat.toDigitsCore 10 f n [] ++ ds := by
  induction f generalizing n ds with
  | zero => simp [Nat.toDigitsCore]
  | succ f ih =>
    simp only [Nat.toDigitsCore]
    split
    · simp
    · rw [ih (n / 10) (Nat.digitChar (n % 10) :: ds), ih (n / 10) [Nat.digitChar (n % 10)]]
      simp

theorem toDigitsCore_spec (f n : Nat) (h : n < f) :
    AllDigits (Nat.toDigitsCore 10 f n []) ∧ digitsValue (Nat.toDigitsCore 10 f n []) 0 = n
      ∧ Nat.toDigitsCore 10 f n [] ≠ [] := by
  induction f generalizing n with
  | zero => omega
  | succ f ih =>
    have hmod : n % 10 < 10 := Nat.mod_lt _ (by norm_num)
    have hch := digitChar_toNat (n % 10) hmod
    simp only [Nat.toDigitsCore]
    split
    · rename_i hz
      refine ⟨?_, ?_, by simp⟩
      · intro c hc
        simp only [List.mem_singleton] at hc
        subst hc
        omega
      · simp only [digitsValue, List.foldl_cons, List.foldl_nil, hch]
        omega
    · rename_i hz
      obtain ⟨h1, h2, h3⟩ := ih (n / 10) (by omega)
      rw [toDigitsCore_append]
      refine ⟨?_, ?_, by simp [h3]⟩
      · intro c hc
        rcases List.mem_append.1 hc with hc | hc
        · exact h1 c hc
        · simp only [List.mem_singleton] at hc
          subst hc
          omega
      · rw [digitsValue_append_singleton, h2, hch]
        omega

theorem toDigits_spec (n : Nat) :
    AllDigits (Nat.toDigits 10 n) ∧ digitsValue (Nat.toDigits 10 n) 0 = n
      ∧ Nat.toDigits 10 n ≠ [] :=
  toDigitsCore_spec (n + 1) n (Nat.lt_succ_self n)

theorem ParseUint_toDigits (n : Nat) (h : n < 2 ^ 64) :
    ParseUint (Nat.toDigits 10 n) = .ok n := by
  obtain ⟨h1, h2, h3⟩ := toDigits_spec n
  rw [ParseUint, if_neg h3, parseUintLoop_of_AllDigits _ _ h1 (by rw [h2]; exact h), h2]

/-- A digit string does not start with a sign. -/
theorem head?_toDigits (n : Nat) :
    (Nat.toDigits 10 n).head? ≠ some '+' ∧ (Nat.toDigits 10 n).head? ≠ some '-' := by
  obtain ⟨h1, _, h3⟩ := toDigits_spec n
  cases hds : Nat.toDigits 10 n with
  | nil => exact absurd hds h3
  | cons c cs =>
    have hc := h1 c (by rw [hds]; exact List.mem_cons_self _ _)
    constructor
    · intro h
      simp only [List.head?_cons, Option.some.injEq] at h
      subst h
      have : ('+' : Char).toNat = 43 := rfl
      omega
    · intro h
      simp only [List.head?_cons, Option.some.injEq] at h
      subst h
      have : ('-' : Char).toNat = 45 := rfl
      omega

/-- Parsing the `%d` rendering of a 64-bit integer gives the integer back. -/
theorem Atoi_FormatInt (c : Int) (hlo : -2 ^ 63 ≤ c) (hhi : c < 2 ^ 63) :
    Atoi (FormatInt c) = .ok c := by
  obtain ⟨_, _, hne⟩ := toDigits_spec c.natAbs
  obtain ⟨hp, hm⟩ := head?_toDigits c.natAbs
  have h63 : (2 : Int) ^ 63 = 9223372036854775808 := by norm_num
  have h63n : (2 : Nat) ^ 63 = 9223372036854775808 := by norm_num
  have h64n : (2 : Nat) ^ 64 = 18446744073709551616 := by norm_num
  rw [h63] at hlo hhi
  by_cases hneg : c < 0
  · have hfmt : FormatInt c = '-' :: Nat.toDigits 10 c.natAbs := by simp [FormatInt, hneg]
    have hpu := ParseUint_toDigits c.natAbs (by rw [h64n]; omega)
    rw [hfmt]
    simp only [Atoi, List.cons_ne_nil, if_false, List.head?_cons, Option.some.injEq,
      or_true, if_true, List.tail_cons, hpu, h63n]
    have h1 : ¬ (c.natAbs > 9223372036854775808) := by omega
    simp only [not_true_eq_false, false_and, if_false, true_and, h1]
    congr 1
    omega
  · have hfmt : FormatInt c = Nat.toDigits 10 c.natAbs := by simp [FormatInt, hneg]
    have hpu := ParseUint_toDigits c.natAbs (by rw [h64n]; omega)
    rw [hfmt]
    simp only [Atoi, hne, if_false, hp, hm, or_self, hpu, h63n]
    have h1 : ¬ (c.natAbs ≥ 9223372036854775808) := by omega
    simp only [not_false_eq_true, true_and, h1, if_false, false_and]
    congr 1
    omega

theorem AllDigits_of_ParseUint (ds : Str) (v : Nat) (h : ParseUint ds = .ok v) :
    AllDigits ds := by
  unfold ParseUint at h
  by_cases hds : ds = []
  · rw [if_pos hds] at h; cases h
  · rw [if_neg hds] at h
    exact AllDigits_of_parseUintLoop _ _ _ h

/-- A string that `Atoi` accepts is not empty and made of signs and digits. -/
theorem Atoi_ok_chars (s : Str) (c : Int) (h : Atoi s = .ok c) :
    s ≠ [] ∧ ∀ ch ∈ s, ch = '+' ∨ ch = '-' ∨ (48 ≤ ch.toNat ∧ ch.toNat ≤ 57) := by
  cases s with
  | nil => simp [Atoi] at h
  | cons a as =>
    refine ⟨by simp, ?_⟩
    simp only [Atoi, List.cons_ne_nil, if_false, List.head?_cons, Option.some.injEq,
      List.tail_cons] at h
    by_cases hsign : a = '+' ∨ a = '-'
    · rw [if_pos hsign] at h
      cases hpu : ParseUint as with
      | error k => rw [hpu] at h; cases h
      | ok un =>
        have hall := AllDigits_of_ParseUint _ _ hpu
        intro ch hch
        rcases List.mem_cons.1 hch with rfl | hmem
        · rcases hsign with h1 | h1
          · exact Or.inl h1
          · exact Or.inr (Or.inl h1)
        · exact Or.inr (Or.inr (hall ch hmem))
    · rw [if_neg hsign] at h
      cases hpu : ParseUint (a :: as) with
      | error k => rw [hpu] at h; cases h
      | ok un =>
        have hall := AllDigits_of_ParseUint _ _ hpu
        intro ch hch
        exact Or.inr (Or.inr (hall ch hch))

/-! ## Decoding one well-formed segment -/

theorem not_mem_of_signs_digits (s : Str) (x : Char)
    (hs : ∀ ch ∈ s, ch = '+' ∨ ch = '-' ∨ (48 ≤ ch.toNat ∧ ch.toNat ≤ 57))
    (hx : x ≠ '+' ∧ x ≠ '-' ∧ ¬ (48 ≤ x.toNat ∧ x.toNat ≤ 57)) : x ∉ s := by
  intro hmem
  rcases hs x hmem with h | h | h
  · exact hx.1 h
  · exact hx.2.1 h
  · exact hx.2.2 h

/-- `TrimLeft` removes a prefix made of cutset characters when what follows does
not start with one. -/
theorem TrimLeft_append (cutset pre rest : Str) (hpre : ∀ c ∈ pre, cutset.elem c = true)
    (hrest : ∀ c, rest.head? = some c → cutset.elem c = false) :
    TrimLeft (pre ++ rest) cutset = rest := by
  unfold TrimLeft
  induction pre with
  | nil =>
    cases rest with
    | nil => rfl
    | cons c cs =>
      have h := hrest c rfl
      rw [List.nil_append, List.dropWhile_cons, h]
      rfl
  | cons p ps ih =>
    rw [List.cons_append, List.dropWhile_cons, hpre p (List.mem_cons_self _ _)]
    exact ih (fun c hc => hpre c (List.mem_cons_of_mem _ hc))

/-- What `TrimLeft` with the cutset "type: " leaves of a rendering, and its words. -/
theorem words_after_trim (K N M : Str)
    (hK : ∀ c, K.head? = some c → c ∉ "type: ".toList) (hN : ' ' ∉ N) :
    ∃ pre : List Str,
      Split (TrimLeft (segmentText K N M) "type: ".toList) [' ']
        = pre ++ "code:".toList :: N :: "message:".toList :: Split M [' ']
      ∧ (K ≠ [] → pre = Split K [' ']) ∧ (K = [] → pre = []) := by
  have hcode : Split "code:".toList [' '] = ["code:".toList] := rfl
  have hmsg : Split "message:".toList [' '] = ["message:".toList] := rfl
  have hrest : Split ("code:".toList ++ ' ' :: (N ++ ' ' :: ("message:".toList ++ ' ' :: M))) [' ']
      = "code:".toList :: N :: "message:".toList :: Split M [' '] := by
    rw [Split_space_append, Split_space_append, Split_space_append, hcode, hmsg,
      Split_space_of_not_mem N hN]
    rfl
  cases K with
  | nil =>
    refine ⟨[], ?_, fun h => absurd rfl h, fun _ => rfl⟩
    have ht : TrimLeft (segmentText [] N M) "type: ".toList
        = "code:".toList ++ ' ' :: (N ++ ' ' :: ("message:".toList ++ ' ' :: M)) := by
      simp [TrimLeft, segmentText, List.dropWhile]
    rw [ht, hrest]
    rfl
  | cons k ks =>
    refine ⟨Split (k :: ks) [' '], ?_, fun _ => rfl, fun h => absurd h (by simp)⟩
    have hk := hK k rfl
    have ht : TrimLeft (segmentText (k :: ks) N M) "type: ".toList
        = (k :: ks) ++ ' ' :: ("code:".toList ++ ' ' :: (N ++ ' ' :: ("message:".toList ++ ' ' :: M)))
        := by
      have h0 : segmentText (k :: ks) N M
          = "type: ".toList ++ ((k :: ks) ++ ' ' ::
              ("code:".toList ++ ' ' :: (N ++ ' ' :: ("message:".toList ++ ' ' :: M)))) := by
        simp [segmentText]
      rw [h0]
      apply TrimLeft_append
      · decide
      · intro c hc
        simp only [List.cons_append, List.head?_cons, Option.some.injEq] at hc
        subst hc
        simpa using hk
    rw [ht, Split_space_append, hrest]

/-- `errorFromString` on the text of a record whose kind and message are readable
and whose code text `Atoi` accepts: the record, with an empty request id. -/
theorem errorFromString_segment (K N M : Str) (c : Int)
    (hK : KindReadable K) (hN : Atoi N = .ok c) (hM : MessageReadable M) :
    errorFromString (segmentText K N M)
      = .ok { Message := M, Code := c, Typ := K, RequestUUID := [] } := by
  obtain ⟨hKhead, _, hKcode⟩ := hK
  obtain ⟨_, hMhead, hMcode, hMmsg⟩ := hM
  obtain ⟨hNne, hNchars⟩ := Atoi_ok_chars N c hN
  have hNsp : ' ' ∉ N := not_mem_of_signs_digits N ' ' hNchars (by decide)
  have hNc : 'c' ∉ N := not_mem_of_signs_digits N 'c' hNchars (by decide)
  have hNm : 'm' ∉ N := not_mem_of_signs_digits N 'm' hNchars (by decide)
  have hNcode : N ≠ "code:".toList := fun h => hNc (by rw [h]; decide)
  have hNmsg : N ≠ "message:".toList := fun h => hNm (by rw [h]; decide)
  obtain ⟨pre, hwords, hpre1, hpre2⟩ := words_after_trim K N M hKhead hNsp
  -- the part before "code:" is the kind
  have hpreCode : "code:".toList ∉ pre := by
    by_cases hk : K = []
    · rw [hpre2 hk]; simp
    · rw [hpre1 hk]; exact hKcode
  have hpreFold : pre.foldl addWord [] = K := by
    by_cases hk : K = []
    · rw [hpre2 hk, hk]; rfl
    · rw [hpre1 hk]
      apply foldl_addWord_Split_nil
      intro h
      exact hKhead ' ' h (by decide)
  have hpostCode : "code:".toList ∉ N :: "message:".toList :: Split M [' '] := by
    intro h
    rcases List.mem_cons.1 h with h | h
    · exact hNcode h.symm
    · rcases List.mem_cons.1 h with h | h
      · exact absurd h (by decide)
      · exact hMcode h
  have hpostFold : (N :: "message:".toList :: Split M [' ']).foldl addWord []
      = N ++ ' ' :: ("message:".toList ++ ' ' :: M) := by
    have h1 : addWord [] N = N := by simp [addWord]
    have h2 : addWord N "message:".toList = N ++ ' ' :: "message:".toList := by
      simp [addWord, hNne]
    rw [List.foldl_cons, List.foldl_cons, h1, h2, foldl_addWord_Split _ _ (by simp)]
    simp
  have hfirst := splitStrAtWord_marker _ _ pre _ hwords hpreCode hpostCode
  rw [hpreFold, hpostFold] at hfirst
  -- the part between "code:" and "message:" is the code text, the rest the message
  have hwords2 : Split (N ++ ' ' :: ("message:".toList ++ ' ' :: M)) [' ']
      = [N] ++ "message:".toList :: Split M [' '] := by
    rw [Split_space_append, Split_space_append, Split_space_of_not_mem N hNsp]
    rfl
  have hsecond := splitStrAtWord_marker _ _ [N] _ hwords2
    (by simpa using fun h => hNmsg h.symm) hMmsg
  rw [foldl_addWord_Split_nil M hMhead] at hsecond
  have hN1 : [N].foldl addWord [] = N := by simp [addWord]
  rw [hN1] at hsecond
  simp only [errorFromString, hfirst, hsecond, hN]

/-- The loop of `ErrorsFromString` over the texts of such records: every record,
with the request id filled in, and no failure. -/
theorem ErrorsFromStringLoop_ok (uuid : Str) (recs : List (Error × Str)) (acc : Errors)
    (h : ∀ r ∈ recs, KindReadable r.1.Typ ∧ Atoi r.2 = .ok r.1.Code
      ∧ MessageReadable r.1.Message) :
    ErrorsFromStringLoop uuid (recs.map (fun r => segmentText r.1.Typ r.2 r.1.Message)) acc
      = (acc ++ recs.map (fun r => some { r.1 with RequestUUID := uuid }), none) := by
  induction recs generalizing acc with
  | nil => simp [ErrorsFromStringLoop]
  | cons r rs ih =>
    obtain ⟨h1, h2, h3⟩ := h r (List.mem_cons_self _ _)
    simp only [List.map_cons, ErrorsFromStringLoop, errorFromString_segment _ _ _ _ h1 h2 h3]
    rw [ih _ (fun x hx => h x (List.mem_cons_of_mem _ hx))]
    simp

/-! ## Decoding a whole rendering -/

theorem TrimLeft_drop (cutset pre rest : Str) (hpre : ∀ c ∈ pre, cutset.elem c = true) :
    TrimLeft (pre ++ rest) cutset = TrimLeft rest cutset := by
  unfold TrimLeft
  induction pre with
  | nil => rfl
  | cons p ps ih =>
    rw [List.cons_append, List.dropWhile_cons, hpre p (List.mem_cons_self _ _)]
    exact ih (fun c hc => hpre c (List.mem_cons_of_mem _ hc))

theorem TrimLeft_of_head (cutset s : Str) (h : ∀ c, s.head? = some c → c ∉ cutset) :
    TrimLeft s cutset = s := by
  have := TrimLeft_append cutset [] s (by simp) (fun c hc => by simpa using h c hc)
  simpa using this

theorem NoSemiSpace_append_space (a b : Str) (ha : NoSemiSpace (a ++ [' ']))
    (hb : NoSemiSpace b) : NoSemiSpace (a ++ ' ' :: b) := by
  have := NoSemiSpace_append (a ++ [' ']) b ha hb (Or.inl (by simp))
  simpa using this

theorem NoSemiSpace_segmentText (K N M : Str) (c : Int)
    (hK : KindReadable K) (hN : Atoi N = .ok c) (hM : MessageReadable M) :
    NoSemiSpace (segmentText K N M) := by
  obtain ⟨_, hKsemi, _⟩ := hK
  obtain ⟨hMsemi, _, _, _⟩ := hM
  obtain ⟨_, hNchars⟩ := Atoi_ok_chars N c hN
  have hNsemi : ';' ∉ N := not_mem_of_signs_digits N ';' hNchars (by decide)
  have h0 : segmentText K N M
      = "type:".toList ++ ' ' :: (K ++ ' ' :: ("code:".toList ++ ' ' ::
          (N ++ ' ' :: ("message:".toList ++ ' ' :: M)))) := by
    simp [segmentText]
  rw [h0]
  apply NoSemiSpace_append_space _ _ (NoSemiSpace_of_not_mem _ (by decide))
  apply NoSemiSpace_append_space _ _ ((Contains_semi_eq_false_iff _).1 hKsemi)
  apply NoSemiSpace_append_space _ _ (NoSemiSpace_of_not_mem _ (by decide))
  apply NoSemiSpace_append_space _ _ (NoSemiSpace_of_not_mem _ (by simpa using hNsemi))
  apply NoSemiSpace_append_space _ _ (NoSemiSpace_of_not_mem _ (by decide))
  exact (Contains_semi_eq_false_iff _).1 hMsemi

/-- `ErrorsFromString` on the texts of one or more readable records joined with
"; " and followed by "; request uuid: " and an id without "; ": no failure, and
every record comes back, carrying the id as `TrimLeft` leaves it. -/
theorem ErrorsFromString_rendering (recs : List (Error × Str)) (U : Str) (hne : recs ≠ [])
    (h : ∀ r ∈ recs, KindReadable r.1.Typ ∧ Atoi r.2 = .ok r.1.Code
      ∧ MessageReadable r.1.Message)
    (hU : Contains U "; ".toList = false) :
    ErrorsFromString
        (Join (recs.map (fun r => segmentText r.1.Typ r.2 r.1.Message)) "; ".toList
          ++ "; request uuid: ".toList ++ U)
      = (recs.map (fun r =>
          some { r.1 with RequestUUID := TrimLeft U "request uuid: ".toList }), none) := by
  have hlast : NoSemiSpace ("request uuid: ".toList ++ U) := by
    have h0 : "request uuid: ".toList ++ U = "request uuid:".toList ++ ' ' :: U := by simp
    rw [h0]
    exact NoSemiSpace_append_space _ _ (NoSemiSpace_of_not_mem _ (by decide))
      ((Contains_semi_eq_false_iff _).1 hU)
  have hsegs : ∀ s ∈ recs.map (fun r => segmentText r.1.Typ r.2 r.1.Message), NoSemiSpace s := by
    intro s hs
    obtain ⟨r, hr, rfl⟩ := List.mem_map.1 hs
    obtain ⟨h1, h2, h3⟩ := h r hr
    exact NoSemiSpace_segmentText _ _ _ _ h1 h2 h3
  have hjoin : Join (recs.map (fun r => segmentText r.1.Typ r.2 r.1.Message)) "; ".toList
        ++ "; request uuid: ".toList ++ U
      = (recs.map (fun r => segmentText r.1.Typ r.2 r.1.Message)).foldr
          (fun seg acc => seg ++ ';' :: ' ' :: acc) ("request uuid: ".toList ++ U) := by
    have := Join_append_sep (recs.map (fun r => segmentText r.1.Typ r.2 r.1.Message))
      [';', ' '] ("request uuid: ".toList ++ U) (by simpa using hne)
    have e1 : "; request uuid: ".toList = [';', ' '] ++ "request uuid: ".toList := rfl
    have e2 : "; ".toList = [';', ' '] := rfl
    rw [e1, e2]
    simp only [List.append_assoc] at this ⊢
    exact this
  have hsplit := Split_segments _ _ hsegs hlast
  rw [← hjoin] at hsplit
  have hsplit' : Split (Join (recs.map (fun r => segmentText r.1.Typ r.2 r.1.Message))
        "; ".toList ++ "; request uuid: ".toList ++ U) "; ".toList
      = recs.map (fun r => segmentText r.1.Typ r.2 r.1.Message)
        ++ ["request uuid: ".toList ++ U] := hsplit
  have huuid : TrimLeft ("request uuid: ".toList ++ U) "request uuid: ".toList
      = TrimLeft U "request uuid: ".toList :=
    TrimLeft_drop _ _ _ (by decide)
  simp only [ErrorsFromString, hsplit', List.getLastD_concat, List.dropLast_concat, huuid]
  rw [ErrorsFromStringLoop_ok _ _ _ h]
  simp

/-! ## The round trip of the codec -/

/-- C1, the claim as stated fails: the list of the one record with message "a; b"
is not empty, shares one request id and has neither "code:" nor "message:" as a
word of its message, yet decoding its rendering returns a failure and no record:
the separator inside the message starts a segment "b" that has no code. -/
theorem roundtrip_separator_counterexample :
    "code:".toList ∉ Split "a; b".toList " ".toList
    ∧ "message:".toList ∉ Split "a; b".toList " ".toList
    ∧ Errors.Error [some ⟨"a; b".toList, 1, ErrorTypeFatal, "u".toList⟩]
        = .ok "type: FATAL_ERROR code: 1 message: a; b; request uuid: u".toList
    ∧ ErrorsFromString "type: FATAL_ERROR code: 1 message: a; b; request uuid: u".toList
        = ([], some ⟨"Atoi".toList, [], .ErrSyntaxKind⟩) := by
  refine ⟨by decide, by decide, rfl, rfl⟩

/-- C1 as amended: for every non-empty list of records that share one request id,
whose kinds, messages and request id are readable (`KindReadable`,
`MessageReadable`, which includes that no word of a message is "code:" or
"message:", and `RequestIdReadable`) and whose codes are 64-bit integers,
`ErrorsFromString(list.Error())` returns no failure and the original list. -/
theorem roundtrip_readable (es : List Error) (u : Str) (hne : es ≠ [])
    (hid : ∀ e ∈ es, e.RequestUUID = u)
    (hrec : ∀ e ∈ es, KindReadable e.Typ ∧ MessageReadable e.Message
      ∧ -2 ^ 63 ≤ e.Code ∧ e.Code < 2 ^ 63)
    (hu : RequestIdReadable u) :
    ∃ s, Errors.Error (es.map some) = .ok s ∧ ErrorsFromString s = (es.map some, none) := by
  refine ⟨_, Errors_Error_map_some es, ?_⟩
  have hlast : (es.getLast?.map Error.RequestUUID).getD [] = u := by
    cases hl : es.getLast? with
    | none => exact absurd (List.getLast?_eq_none_iff.1 hl) hne
    | some x => simpa using hid x (List.mem_of_getLast?_eq_some hl)
  have hcore := ErrorsFromString_rendering (es.map (fun e => (e, FormatInt e.Code))) u
    (by simpa using hne)
    (by
      intro r hr
      obtain ⟨e, he, rfl⟩ := List.mem_map.1 hr
      obtain ⟨h1, h2, h3, h4⟩ := hrec e he
      exact ⟨h1, Atoi_FormatInt _ h3 h4, h2⟩)
    hu.1
  have htrim : TrimLeft u "request uuid: ".toList = u := TrimLeft_of_head _ _ hu.2
  have hmap : (es.map (fun e => (e, FormatInt e.Code))).map
        (fun r => segmentText r.1.Typ r.2 r.1.Message)
      = es.map Error.ErrorWithoutUUID := by
    simp [List.map_map, Function.comp_def, segmentText, Error.ErrorWithoutUUID]
  rw [hmap, htrim] at hcore
  rw [hlast, hcore]
  congr 1
  rw [List.map_map]
  apply List.map_congr_left
  intro e he
  have := hid e he
  simp only [Function.comp_apply]
  rw [← this]

/-- The amended C1 at the record of the repository's test: kind FATAL_ERROR, code
2015, message "Unknown folder". -/
theorem roundtrip_readable_witness :
    ∃ s, Errors.Error ([⟨"Unknown folder".toList, 2015, ErrorTypeFatal,
          "7199948d-9f0d-4649-9625-495b33ad4940".toList⟩].map some) = .ok s
      ∧ ErrorsFromString s
        = ([⟨"Unknown folder".toList, 2015, ErrorTypeFatal,
            "7199948d-9f0d-4649-9625-495b33ad4940".toList⟩].map some, none) :=
  roundtrip_readable
    [⟨"Unknown folder".toList, 2015, ErrorTypeFatal,
      "7199948d-9f0d-4649-9625-495b33ad4940".toList⟩]
    "7199948d-9f0d-4649-9625-495b33ad4940".toList (by simp)
    (by intro e he; simp only [List.mem_singleton] at he; subst he; rfl)
    (by
      intro e he
      simp only [List.mem_singleton] at he
      subst he
      refine ⟨by decide, by decide, by norm_num, by norm_num⟩)
    (by decide)

/-- C2, the code at the failing input: the request id "d3b07384-…" comes back
without its first character, which `TrimLeft` removes as a member of the cutset
"request uuid: ". -/
theorem ErrorsFromString_request_id_trimmed :
    ErrorsFromString ("type: FATAL_ERROR code: 2015 message: Unknown folder; "
        ++ "request uuid: d3b07384-d113-4ec5-a5c6-3e8c6e3a1f2b").toList
      = ([some ⟨"Unknown folder".toList, 2015, "FATAL_ERROR".toList,
            "3b07384-d113-4ec5-a5c6-3e8c6e3a1f2b".toList⟩], none) := by
  rfl

/-! ## Failure of the decoder -/

theorem errorFromString_eq (seg : Str) :
    errorFromString seg
      = match Atoi (codePart seg) with
        | .error errConv => .error errConv
        | .ok codeInt =>
          .ok { Typ := (splitStrAtWord (TrimLeft seg "type: ".toList) "code:".toList).1,
                Code := codeInt,
                Message := (splitStrAtWord
                  (splitStrAtWord (TrimLeft seg "type: ".toList) "code:".toList).2
                  "message:".toList).2,
                RequestUUID := [] } := rfl

theorem ErrorsFromStringLoop_failure (uuid : Str) (segs : List Str) (acc : Errors) :
    (ErrorsFromStringLoop uuid segs acc).2 = segs.findSome? parseFailure
    ∧ ((ErrorsFromStringLoop uuid segs acc).2 ≠ none
        → (ErrorsFromStringLoop uuid segs acc).1 = []) := by
  induction segs generalizing acc with
  | nil => simp [ErrorsFromStringLoop]
  | cons seg rest ih =>
    rw [ErrorsFromStringLoop, errorFromString_eq, List.findSome?_cons]
    unfold parseFailure
    cases Atoi (codePart seg) with
    | error err => simp
    | ok c => simpa using ih _

theorem findSome?_ne_none_iff {α β : Type} (f : α → Option β) (l : List α) :
    l.findSome? f ≠ none ↔ ∃ a ∈ l, f a ≠ none := by
  induction l with
  | nil => simp
  | cons a l ih =>
    rw [List.findSome?_cons]
    cases h : f a with
    | some b => simp [h]
    | none => simp [h, ih]

/-- C7: `ErrorsFromString(s)` returns a failure exactly when, of the segments of
`s` split on "; " other than the last, one has a code part on which `Atoi` fails;
with a failure the returned list is empty; and the failure is the `Atoi` failure
of the first such segment. -/
theorem ErrorsFromString_failure (s : Str) :
    ((ErrorsFromString s).2 ≠ none
        ↔ ∃ seg ∈ (Split s "; ".toList).dropLast, ∃ err, Atoi (codePart seg) = .error err)
    ∧ ((ErrorsFromString s).2 ≠ none → (ErrorsFromString s).1 = [])
    ∧ (ErrorsFromString s).2 = (Split s "; ".toList).dropLast.findSome? parseFailure := by
  obtain ⟨h1, h2⟩ := ErrorsFromStringLoop_failure
    (TrimLeft ((Split s "; ".toList).getLastD []) "request uuid: ".toList)
    (Split s "; ".toList).dropLast []
  refine ⟨?_, h2, h1⟩
  have h3 : (ErrorsFromString s).2 = (Split s "; ".toList).dropLast.findSome? parseFailure := h1
  rw [h3, findSome?_ne_none_iff]
  constructor
  · rintro ⟨seg, hmem, hf⟩
    refine ⟨seg, hmem, ?_⟩
    unfold parseFailure at hf
    cases hA : Atoi (codePart seg) with
    | error err => exact ⟨err, rfl⟩
    | ok c => rw [hA] at hf; exact absurd rfl hf
  · rintro ⟨seg, hmem, err, hA⟩
    refine ⟨seg, hmem, ?_⟩
    unfold parseFailure
    rw [hA]
    simp

/-! ## Input without a separator -/

theorem ErrorsFromString_of_not_Contains (s : Str) (h : Contains s "; ".toList = false) :
    ErrorsFromString s = ([], none) := by
  simp only [ErrorsFromString, Split_of_not_Contains _ s h]
  rfl

theorem semi_not_mem_FormatInt (n : Int) : ';' ∉ FormatInt n := by
  obtain ⟨hd, _, _⟩ := toDigits_spec n.natAbs
  have hsemi : ';' ∉ Nat.toDigits 10 n.natAbs := by
    intro hm
    have := hd ';' hm
    have h59 : (';' : Char).toNat = 59 := rfl
    omega
  unfold FormatInt
  split
  · intro hm
    rcases List.mem_cons.1 hm with h | h
    · exact absurd h (by decide)
    · exact hsemi h
  · exact hsemi

/-- The rendering of a single record holds no "; " when its message and its
request id hold none and its kind, followed by a space, holds none. -/
theorem NoSemiSpace_Error (e : Error)
    (hK : Contains (e.Typ ++ " ".toList) "; ".toList = false)
    (hM : Contains e.Message "; ".toList = false)
    (hU : Contains e.RequestUUID "; ".toList = false) : NoSemiSpace e.Error := by
  have h0 : e.Error
      = "type:".toList ++ ' ' :: (e.Typ ++ ' ' :: ("code:".toList ++ ' ' ::
          (FormatInt e.Code ++ ' ' :: ("message:".toList ++ ' ' ::
            (e.Message ++ (", request uuid:".toList ++ ' ' :: e.RequestUUID)))))) := by
    simp [Error.Error]
  rw [h0]
  apply NoSemiSpace_append_space _ _ (NoSemiSpace_of_not_mem _ (by decide))
  apply NoSemiSpace_append_space _ _ ((Contains_semi_eq_false_iff _).1 hK)
  apply NoSemiSpace_append_space _ _ (NoSemiSpace_of_not_mem _ (by decide))
  apply NoSemiSpace_append_space _ _
    (NoSemiSpace_of_not_mem _ (by simpa using semi_not_mem_FormatInt e.Code))
  apply NoSemiSpace_append_space _ _ (NoSemiSpace_of_not_mem _ (by decide))
  apply NoSemiSpace_append _ _ ((Contains_semi_eq_false_iff _).1 hM)
  · exact NoSemiSpace_append_space _ _ (NoSemiSpace_of_not_mem _ (by decide))
      ((Contains_semi_eq_false_iff _).1 hU)
  · exact Or.inr (by simp)

/-- C8, the claim as stated fails: no field of the record with kind "x;" holds
"; ", yet its rendering does (the kind's last character and the space after it),
and decoding the rendering returns a failure. -/
theorem ErrorsFromString_single_record_counterexample :
    Contains "x;".toList "; ".toList = false
    ∧ Contains "m".toList "; ".toList = false
    ∧ Contains "u".toList "; ".toList = false
    ∧ Error.Error ⟨"m".toList, 1, "x;".toList, "u".toList⟩
        = "type: x; code: 1 message: m, request uuid: u".toList
    ∧ ErrorsFromString (Error.Error ⟨"m".toList, 1, "x;".toList, "u".toList⟩)
        = ([], some ⟨"Atoi".toList, [], .ErrSyntaxKind⟩) :=
  ⟨rfl, rfl, rfl, rfl, rfl⟩

/-- C8 as amended: `ErrorsFromString("")` returns the empty list and no failure;
so does `ErrorsFromString` on every input without an occurrence of "; ", which
includes the rendering `Error.Error()` of every record whose message and request
id hold no "; " and whose kind holds no "; " and does not end in a semicolon. -/
theorem ErrorsFromString_no_separator (s : Str) (e : Error) :
    ErrorsFromString [] = ([], none)
    ∧ (Contains s "; ".toList = false → ErrorsFromString s = ([], none))
    ∧ (Contains (e.Typ ++ " ".toList) "; ".toList = false →
        Contains e.Message "; ".toList = false →
        Contains e.RequestUUID "; ".toList = false →
        Contains e.Error "; ".toList = false ∧ ErrorsFromString e.Error = ([], none)) := by
  refine ⟨rfl, ErrorsFromString_of_not_Contains s, ?_⟩
  intro hK hM hU
  have h := (Contains_semi_eq_false_iff _).2 (NoSemiSpace_Error e hK hM hU)
  exact ⟨h, ErrorsFromString_of_not_Contains _ h⟩

/-! ## The classifiers `IsBusinessError`, `IsFatalBusinessError`, `IsErrorCode` -/

theorem IsBusinessError_ptr (p : Option Error) :
    IsBusinessError (.errorPtr p) = .ok true := by
  rw [IsBusinessError]

theorem IsBusinessError_errors (e : Errors) :
    IsBusinessError (.errors e)
      = e.anyM (fun innerError => IsBusinessError (.errorPtr innerError)) := by
  rw [IsBusinessError]

/-- On a list `IsBusinessError` returns at the first member, whatever it is. -/
theorem IsBusinessError_list (e : Errors) :
    IsBusinessError (.errors e) = .ok (!e.isEmpty) := by
  rw [IsBusinessError_errors]
  cases e with
  | nil => rfl
  | cons p ps => simp [List.anyM, IsBusinessError_ptr, bind, Except.bind, pure, Except.pure]

theorem IsFatalBusinessError_ptr (e : Error) :
    IsFatalBusinessError (.errorPtr (some e)) = .ok (e.Typ == ErrorTypeFatal) := by
  rw [IsFatalBusinessError]

theorem IsFatalBusinessError_errors (e : Errors) :
    IsFatalBusinessError (.errors e)
      = e.anyM (fun innerError => IsFatalBusinessError (.errorPtr innerError)) := by
  rw [IsFatalBusinessError]

theorem IsErrorCode_ptr (e : Error) (code : Int) :
    IsErrorCode (.errorPtr (some e)) code = .ok (e.Code == code) := by
  rw [IsErrorCode]

theorem IsErrorCode_errors (e : Errors) (code : Int) :
    IsErrorCode (.errors e) code
      = e.anyM (fun innerError => IsErrorCode (.errorPtr innerError) code) := by
  rw [IsErrorCode]

/-- A loop that returned true ran over at least one member. -/
theorem ne_nil_of_anyM_true (f : Option Error → Except Panic Bool) (e : Errors)
    (h : e.anyM f = .ok true) : e ≠ [] := by
  intro he
  subst he
  cases h

/-- C11: `IsBusinessError(err)` is true exactly when `err` is a `*Error` or a list
with at least one member; it returns (never panics); it is false for the nil
error, the empty list, a foreign error value and an `Error` held by value; and on
a record held by pointer and on a non-empty list of records it is true whatever
the records' kind, code, message and request id are. -/
theorem IsBusinessError_spec (err : GoError) (e : Error) (es : List Error) (msg : Str) :
    (IsBusinessError err = .ok true
        ↔ (∃ p, err = .errorPtr p) ∨ (∃ l, err = .errors l ∧ l ≠ []))
    ∧ (∃ b, IsBusinessError err = .ok b)
    ∧ IsBusinessError .nil = .ok false
    ∧ IsBusinessError (.errors []) = .ok false
    ∧ IsBusinessError (.foreign msg) = .ok false
    ∧ IsBusinessError (.errorVal e) = .ok false
    ∧ IsBusinessError (.errorPtr (some e)) = .ok true
    ∧ IsBusinessError (.errors (es.map some)) = .ok (decide (es ≠ [])) := by
  have hnil : IsBusinessError .nil = .ok false := by
    rw [IsBusinessError] <;> (intros; contradiction)
  have hfor : ∀ m, IsBusinessError (.foreign m) = .ok false := by
    intro m; rw [IsBusinessError] <;> (intros; contradiction)
  have hval : ∀ v, IsBusinessError (.errorVal v) = .ok false := by
    intro v; rw [IsBusinessError] <;> (intros; contradiction)
  refine ⟨?_, ?_, hnil, ?_, hfor msg, hval e, IsBusinessError_ptr _, ?_⟩
  · cases err with
    | nil => simp [hnil]
    | errors l =>
      rw [IsBusinessError_list]
      cases l <;> simp
    | errorPtr p => simp [IsBusinessError_ptr]
    | errorVal v => simp [hval]
    | foreign m => simp [hfor]
  · cases err with
    | nil => exact ⟨_, hnil⟩
    | errors l => exact ⟨_, IsBusinessError_list l⟩
    | errorPtr p => exact ⟨_, IsBusinessError_ptr p⟩
    | errorVal v => exact ⟨_, hval v⟩
    | foreign m => exact ⟨_, hfor m⟩
  · rw [IsBusinessError_list]; rfl
  · rw [IsBusinessError_list]
    cases es <;> simp

/-- C13: on a record held by pointer `IsFatalBusinessError` is true exactly when
the kind is "FATAL_ERROR"; on a list of records exactly when some member has that
kind, so it is false on the empty list and on a list of NON_FATAL_ERROR and
WARNING records only; it is false on the nil error and on a foreign error. -/
theorem IsFatalBusinessError_spec (e : Error) (es : List Error) (msg : Str) :
    IsFatalBusinessError (.errorPtr (some e)) = .ok (decide (e.Typ = "FATAL_ERROR".toList))
    ∧ IsFatalBusinessError (.errors (es.map some))
        = .ok (decide (∃ m ∈ es, m.Typ = "FATAL_ERROR".toList))
    ∧ IsFatalBusinessError (.errors []) = .ok false
    ∧ ((∀ m ∈ es, m.Typ = ErrorTypeNonFatal ∨ m.Typ = ErrorTypeWarning) →
        IsFatalBusinessError (.errors (es.map some)) = .ok false)
    ∧ IsFatalBusinessError .nil = .ok false
    ∧ IsFatalBusinessError (.foreign msg) = .ok false := by
  have hlist : IsFatalBusinessError (.errors (es.map some))
      = .ok (decide (∃ m ∈ es, m.Typ = "FATAL_ERROR".toList)) := by
    rw [IsFatalBusinessError_errors,
      anyM_map_some _ (fun m => m.Typ == ErrorTypeFatal) IsFatalBusinessError_ptr]
    congr 1
    rw [Bool.eq_iff_iff]
    simp [List.any_eq_true, ErrorTypeFatal]
  refine ⟨?_, hlist, ?_, ?_, ?_, ?_⟩
  · rw [IsFatalBusinessError_ptr]
    congr 1
    rw [Bool.eq_iff_iff]
    simp [ErrorTypeFatal]
  · rw [IsFatalBusinessError_errors]; rfl
  · intro h
    rw [hlist]
    congr 1
    rw [decide_eq_false_iff_not]
    rintro ⟨m, hm, hf⟩
    rcases h m hm with h1 | h1
    · rw [h1] at hf; exact absurd hf (by decide)
    · rw [h1] at hf; exact absurd hf (by decide)
  · rw [IsFatalBusinessError] <;> (intros; contradiction)
  · rw [IsFatalBusinessError] <;> (intros; contradiction)

/-- C14: for every code `c`, on a record held by pointer `IsErrorCode(err, c)` is
true exactly when the record's code is `c`; on a list of records exactly when
some member's code is `c`, so it is false on the empty list; it is false on the
nil error and on a foreign error. -/
theorem IsErrorCode_spec (c : Int) (e : Error) (es : List Error) (msg : Str) :
    IsErrorCode (.errorPtr (some e)) c = .ok (decide (e.Code = c))
    ∧ IsErrorCode (.errors (es.map some)) c = .ok (decide (∃ m ∈ es, m.Code = c))
    ∧ IsErrorCode (.errors []) c = .ok false
    ∧ IsErrorCode .nil c = .ok false
    ∧ IsErrorCode (.foreign msg) c = .ok false := by
  refine ⟨?_, ?_, ?_, ?_, ?_⟩
  · rw [IsErrorCode_ptr]
    rfl
  · rw [IsErrorCode_errors,
      anyM_map_some _ (fun m => m.Code == c) (fun m => IsErrorCode_ptr m c)]
    congr 1
    rw [Bool.eq_iff_iff]
    simp [List.any_eq_true]
  · rw [IsErrorCode_errors]; rfl
  · rw [IsErrorCode] <;> (intros; contradiction)
  · rw [IsErrorCode] <;> (intros; contradiction)

/-! ## The classifiers on values that are not a `*Error` or a list -/

theorem IsNotFoundError_other :
    IsNotFoundError .nil = .ok false
    ∧ (∀ v, IsNotFoundError (.errorVal v) = .ok false)
    ∧ (∀ m, IsNotFoundError (.foreign m) = .ok false) := by
  refine ⟨?_, fun v => ?_, fun m => ?_⟩ <;>
    (rw [IsNotFoundError] <;> (intros; contradiction))

theorem IsBusinessError_other :
    IsBusinessError .nil = .ok false
    ∧ (∀ v, IsBusinessError (.errorVal v) = .ok false)
    ∧ (∀ m, IsBusinessError (.foreign m) = .ok false) := by
  refine ⟨?_, fun v => ?_, fun m => ?_⟩ <;>
    (rw [IsBusinessError] <;> (intros; contradiction))

theorem IsFatalBusinessError_other :
    IsFatalBusinessError .nil = .ok false
    ∧ (∀ v, IsFatalBusinessError (.errorVal v) = .ok false)
    ∧ (∀ m, IsFatalBusinessError (.foreign m) = .ok false) := by
  refine ⟨?_, fun v => ?_, fun m => ?_⟩ <;>
    (rw [IsFatalBusinessError] <;> (intros; contradiction))

theorem IsErrorCode_other (c : Int) :
    IsErrorCode .nil c = .ok false
    ∧ (∀ v, IsErrorCode (.errorVal v) c = .ok false)
    ∧ (∀ m, IsErrorCode (.foreign m) c = .ok false) := by
  refine ⟨?_, fun v => ?_, fun m => ?_⟩ <;>
    (rw [IsErrorCode] <;> (intros; contradiction))

/-- C20: for every error value and every code, each of `IsNotFoundError`,
`IsFatalBusinessError` and `IsErrorCode` returning true implies that
`IsBusinessError` returns true; on a foreign error value and on the empty list
all four return false. -/
theorem IsBusinessError_weakest (err : GoError) (c : Int) (msg : Str) :
    (IsNotFoundError err = .ok true → IsBusinessError err = .ok true)
    ∧ (IsFatalBusinessError err = .ok true → IsBusinessError err = .ok true)
    ∧ (IsErrorCode err c = .ok true → IsBusinessError err = .ok true)
    ∧ (IsNotFoundError (.foreign msg) = .ok false
        ∧ IsFatalBusinessError (.foreign msg) = .ok false
        ∧ IsErrorCode (.foreign msg) c = .ok false
        ∧ IsBusinessError (.foreign msg) = .ok false)
    ∧ (IsNotFoundError (.errors []) = .ok false
        ∧ IsFatalBusinessError (.errors []) = .ok false
        ∧ IsErrorCode (.errors []) c = .ok false
        ∧ IsBusinessError (.errors []) = .ok false) := by
  obtain ⟨n1, n2, n3⟩ := IsNotFoundError_other
  obtain ⟨f1, f2, f3⟩ := IsFatalBusinessError_other
  obtain ⟨c1, c2, c3⟩ := IsErrorCode_other c
  obtain ⟨b1, b2, b3⟩ := IsBusinessError_other
  have hlist : ∀ (l : Errors), l ≠ [] → IsBusinessError (.errors l) = .ok true := by
    intro l hl
    rw [IsBusinessError_list]
    cases l with
    | nil => exact absurd rfl hl
    | cons p ps => rfl
  refine ⟨?_, ?_, ?_, ⟨n3 msg, f3 msg, c3 msg, b3 msg⟩, ⟨?_, ?_, ?_, ?_⟩⟩
  · intro h
    cases err with
    | nil => rw [n1] at h; cases h
    | errors l =>
      rw [IsNotFoundError_errors] at h
      exact hlist l (ne_nil_of_anyM_true _ l h)
    | errorPtr p => exact IsBusinessError_ptr p
    | errorVal v => rw [n2] at h; cases h
    | foreign m => rw [n3] at h; cases h
  · intro h
    cases err with
    | nil => rw [f1] at h; cases h
    | errors l =>
      rw [IsFatalBusinessError_errors] at h
      exact hlist l (ne_nil_of_anyM_true _ l h)
    | errorPtr p => exact IsBusinessError_ptr p
    | errorVal v => rw [f2] at h; cases h
    | foreign m => rw [f3] at h; cases h
  · intro h
    cases err with
    | nil => rw [c1] at h; cases h
    | errors l =>
      rw [IsErrorCode_errors] at h
      exact hlist l (ne_nil_of_anyM_true _ l h)
    | errorPtr p => exact IsBusinessError_ptr p
    | errorVal v => rw [c2] at h; cases h
    | foreign m => rw [c3] at h; cases h
  · rw [IsNotFoundError_errors]; rfl
  · rw [IsFatalBusinessError_errors]; rfl
  · rw [IsErrorCode_errors]; rfl
  · rw [IsBusinessError_list]; rfl

/-- What the classification functions return on a record held by pointer and on
the same record held by value. -/
theorem classifiers_pointer_and_value (e : Error) (c : Int) :
    GetNumErrors (.errorPtr (some e)) = .ok 1
    ∧ GetNumErrors (.errorVal e) = .ok (if e.IsError = true then 1 else 0)
    ∧ ToUserFriendlyMessage (.errorPtr (some e)) = ToUserFriendlyMessage (.errorVal e)
    ∧ IsBusinessError (.errorPtr (some e)) = .ok true
    ∧ IsBusinessError (.errorVal e) = .ok false
    ∧ IsNotFoundError (.errorVal e) = .ok false
    ∧ IsFatalBusinessError (.errorVal e) = .ok false
    ∧ IsErrorCode (.errorVal e) c = .ok false := by
  refine ⟨rfl, rfl, ?_, IsBusinessError_ptr _, IsBusinessError_other.2.1 e,
    IsNotFoundError_other.2.1 e, IsFatalBusinessError_other.2.1 e, (IsErrorCode_other c).2.1 e⟩
  rw [ToUserFriendlyMessage_ptr, ToUserFriendlyMessage]

/-- C12, the code at the failing inputs: on a pointer to the WARNING record with
code 6004 `GetNumErrors` returns 1 and on its value 0; `IsNotFoundError`,
`IsBusinessError` and `IsErrorCode(., 6004)` return true on the pointer and false
on the value; so does `IsFatalBusinessError` on a FATAL_ERROR record. -/
theorem classifiers_differ_on_value_and_pointer :
    GetNumErrors (.errorPtr (some ⟨"m".toList, 6004, ErrorTypeWarning, []⟩)) = .ok 1
    ∧ GetNumErrors (.errorVal ⟨"m".toList, 6004, ErrorTypeWarning, []⟩) = .ok 0
    ∧ IsNotFoundError (.errorPtr (some ⟨"m".toList, 6004, ErrorTypeWarning, []⟩)) = .ok true
    ∧ IsNotFoundError (.errorVal ⟨"m".toList, 6004, ErrorTypeWarning, []⟩) = .ok false
    ∧ IsBusinessError (.errorPtr (some ⟨"m".toList, 6004, ErrorTypeWarning, []⟩)) = .ok true
    ∧ IsBusinessError (.errorVal ⟨"m".toList, 6004, ErrorTypeWarning, []⟩) = .ok false
    ∧ IsErrorCode (.errorPtr (some ⟨"m".toList, 6004, ErrorTypeWarning, []⟩)) 6004 = .ok true
    ∧ IsErrorCode (.errorVal ⟨"m".toList, 6004, ErrorTypeWarning, []⟩) 6004 = .ok false
    ∧ IsFatalBusinessError (.errorPtr (some ⟨"m".toList, 6004, ErrorTypeFatal, []⟩)) = .ok true
    ∧ IsFatalBusinessError (.errorVal ⟨"m".toList, 6004, ErrorTypeFatal, []⟩) = .ok false := by
  refine ⟨rfl, rfl, ?_, IsNotFoundError_other.2.1 _, IsBusinessError_ptr _,
    IsBusinessError_other.2.1 _, ?_, (IsErrorCode_other 6004).2.1 _, ?_,
    IsFatalBusinessError_other.2.1 _⟩
  · rw [IsNotFoundError_ptr]; rfl
  · rw [IsErrorCode_ptr]; rfl
  · rw [IsFatalBusinessError_ptr]; rfl

/-! ## `Errors()`, `Warnings()` and the typed entity -/

theorem WarningsLoop_map_some (es : List Error) (acc : Errors) :
    Errors.WarningsLoop (es.map some) acc
      = .ok (acc ++ (es.filter Error.IsWarning).map some) := by
  induction es generalizing acc with
  | nil => simp [Errors.WarningsLoop]
  | cons e es ih =>
    simp only [List.map_cons, Errors.WarningsLoop, ih, List.filter_cons]
    cases e.IsWarning <;> simp

theorem Warnings_map_some (es : List Error) :
    Errors.Warnings (es.map some) = .ok ((es.filter Error.IsWarning).map some) := by
  simp [Errors.Warnings, WarningsLoop_map_some]

theorem IsError_iff (e : Error) :
    e.IsError = true ↔ e.Typ = "FATAL_ERROR".toList ∨ e.Typ = "NON_FATAL_ERROR".toList := by
  simp [Error.IsError, ErrorTypeFatal, ErrorTypeNonFatal]

theorem IsWarning_iff (e : Error) : e.IsWarning = true ↔ e.Typ = "WARNING".toList := by
  simp [Error.IsWarning, ErrorTypeWarning]

/-- C15: for every list of records `list.Errors()` is the sub-list of the members
whose `IsError()` is true (kind FATAL_ERROR or NON_FATAL_ERROR) and
`list.Warnings()` the sub-list of the members whose `IsWarning()` is true (kind
WARNING): the filtered list, so in the original order, with multiplicity and with
no other record. -/
theorem Errors_Warnings_filter (es : List Error) (e : Error) :
    Errors.Errors (es.map some) = .ok ((es.filter Error.IsError).map some)
    ∧ Errors.Warnings (es.map some) = .ok ((es.filter Error.IsWarning).map some)
    ∧ (e.IsError = true ↔ e.Typ = "FATAL_ERROR".toList ∨ e.Typ = "NON_FATAL_ERROR".toList)
    ∧ (e.IsWarning = true ↔ e.Typ = "WARNING".toList)
    ∧ (es.filter Error.IsError).Sublist es
    ∧ (es.filter Error.IsWarning).Sublist es
    ∧ (e ∈ es.filter Error.IsError ↔ e ∈ es ∧ e.IsError = true)
    ∧ (e ∈ es.filter Error.IsWarning ↔ e ∈ es ∧ e.IsWarning = true)
    ∧ (es.filter Error.IsError).count e = (if e.IsError = true then es.count e else 0)
    ∧ (es.filter Error.IsWarning).count e = (if e.IsWarning = true then es.count e else 0) := by
  refine ⟨Errors_map_some es, Warnings_map_some es, IsError_iff e, IsWarning_iff e,
    List.filter_sublist es, List.filter_sublist es, List.mem_filter, List.mem_filter, ?_, ?_⟩
  · by_cases h : e.IsError = true
    · rw [if_pos h, List.count_filter h]
    · rw [if_neg h, List.count_eq_zero_of_not_mem]
      intro hm
      exact h (List.mem_filter.1 hm).2
  · by_cases h : e.IsWarning = true
    · rw [if_pos h, List.count_filter h]
    · rw [if_neg h, List.count_eq_zero_of_not_mem]
      intro hm
      exact h (List.mem_filter.1 hm).2

/-- C16: for every BaseEntity, `GetEntityId` returns the identifier when the
metadata and its id are present and the empty string when the metadata or its id
is absent; `GetEntityType` returns the metadata's entity type when the metadata is
present and the empty type when it is absent; both return (no failure) and
neither depends on the nil-is-empty flag. -/
theorem BaseEntity_accessors_spec (m : EntityMeta) (id : Str) (md : Option EntityMeta)
    (flag other : Bool) :
    BaseEntity.GetEntityId (some ⟨some { m with Id := some id }, flag⟩) = .ok id
    ∧ BaseEntity.GetEntityId (some ⟨some { m with Id := none }, flag⟩) = .ok []
    ∧ BaseEntity.GetEntityId (some ⟨none, flag⟩) = .ok []
    ∧ BaseEntity.GetEntityType (some ⟨some m, flag⟩) = .ok m.EntityType
    ∧ BaseEntity.GetEntityType (some ⟨none, flag⟩) = .ok []
    ∧ (∃ s, BaseEntity.GetEntityId (some ⟨md, flag⟩) = .ok s)
    ∧ (∃ t, BaseEntity.GetEntityType (some ⟨md, flag⟩) = .ok t)
    ∧ BaseEntity.GetEntityId (some ⟨md, flag⟩) = BaseEntity.GetEntityId (some ⟨md, other⟩)
    ∧ BaseEntity.GetEntityType (some ⟨md, flag⟩)
        = BaseEntity.GetEntityType (some ⟨md, other⟩) := by
  refine ⟨rfl, rfl, rfl, rfl, rfl, ?_, ?_, rfl, rfl⟩
  · cases md with
    | none => exact ⟨_, rfl⟩
    | some x =>
      cases hid : x.Id with
      | none => exact ⟨[], by simp [BaseEntity.GetEntityId, hid]⟩
      | some i => exact ⟨i, by simp [BaseEntity.GetEntityId, hid]⟩
  · cases md with
    | none => exact ⟨_, rfl⟩
    | some x => exact ⟨_, rfl⟩

theorem not_IsError_and_IsWarning (e : Error) : ¬ (e.IsError = true ∧ e.IsWarning = true) := by
  rintro ⟨h1, h2⟩
  rw [IsWarning_iff] at h2
  rw [IsError_iff, h2] at h1
  rcases h1 with h | h
  · exact absurd h (by decide)
  · exact absurd h (by decide)

theorem length_filter_IsError_add (es : List Error)
    (h : ∀ m ∈ es, m.Typ = ErrorTypeFatal ∨ m.Typ = ErrorTypeNonFatal
      ∨ m.Typ = ErrorTypeWarning) :
    (es.filter Error.IsError).length + (es.filter Error.IsWarning).length = es.length := by
  induction es with
  | nil => rfl
  | cons a rest ih =>
    have ih' := ih (fun m hm => h m (List.mem_cons_of_mem _ hm))
    have ha := h a (List.mem_cons_self _ _)
    by_cases hw : a.IsWarning = true
    · have he : a.IsError = false := by
        cases hE : a.IsError with
        | false => rfl
        | true => exact absurd ⟨hE, hw⟩ (not_IsError_and_IsWarning a)
      simp only [List.filter_cons, hw, he, if_true, List.length_cons, Bool.false_eq_true,
        if_false]
      omega
    · have he : a.IsError = true := by
        rcases ha with h1 | h1 | h1
        · simp [Error.IsError, h1]
        · simp [Error.IsError, h1]
        · exact absurd (by simp [Error.IsWarning, h1]) hw
      have hw' : a.IsWarning = false := by simpa using hw
      simp only [List.filter_cons, hw', he, if_true, List.length_cons, Bool.false_eq_true,
        if_false]
      omega

/-- C19: `IsError()` and `IsWarning()` are never both true of a record, so no
member of a list of records is returned by both `Errors()` and `Warnings()`; and
when every member's kind is FATAL_ERROR, NON_FATAL_ERROR or WARNING, the lengths
of `Errors()` and `Warnings()` add up to the length of the list and
`GetNumErrors` of the list is its length minus the length of `Warnings()`. -/
theorem kind_partitions_list (e : Error) (es : List Error) :
    ¬ (e.IsError = true ∧ e.IsWarning = true)
    ∧ ∃ le lw, Errors.Errors (es.map some) = .ok le
        ∧ Errors.Warnings (es.map some) = .ok lw
        ∧ (∀ p ∈ le, p ∉ lw)
        ∧ ((∀ m ∈ es, m.Typ = ErrorTypeFatal ∨ m.Typ = ErrorTypeNonFatal
              ∨ m.Typ = ErrorTypeWarning) →
            le.length + lw.length = es.length
            ∧ GetNumErrors (.errors (es.map some))
                = .ok ((es.length : Int) - (lw.length : Int))) := by
  refine ⟨not_IsError_and_IsWarning e, _, _, Errors_map_some es, Warnings_map_some es, ?_, ?_⟩
  · intro p hp hq
    obtain ⟨a, ha, rfl⟩ := List.mem_map.1 hp
    obtain ⟨b, hb, hab⟩ := List.mem_map.1 hq
    have hab' : b = a := Option.some.inj hab
    subst hab'
    exact not_IsError_and_IsWarning b ⟨(List.mem_filter.1 ha).2, (List.mem_filter.1 hb).2⟩
  · intro h
    have hlen := length_filter_IsError_add es h
    refine ⟨by simpa using hlen, ?_⟩
    simp only [GetNumErrors, Errors_map_some, List.length_map]
    congr 1
    omega

/-- C19 at the list of the repository's test, one WARNING and one NON_FATAL_ERROR
record: one error, one warning, and `GetNumErrors` is 2 - 1. -/
theorem kind_partitions_list_witness :
    GetNumErrors (.errors ([⟨"test".toList, 0, ErrorTypeWarning, "testing-UUID".toList⟩,
        ⟨"message 2".toList, 0, ErrorTypeNonFatal, "testing-UUID".toList⟩].map some))
      = .ok 1 := by
  obtain ⟨_, le, lw, h1, h2, _, h4⟩ := kind_partitions_list
    ⟨"test".toList, 0, ErrorTypeWarning, "testing-UUID".toList⟩
    [⟨"test".toList, 0, ErrorTypeWarning, "testing-UUID".toList⟩,
      ⟨"message 2".toList, 0, ErrorTypeNonFatal, "testing-UUID".toList⟩]
  have hw : lw = [some ⟨"test".toList, 0, ErrorTypeWarning, "testing-UUID".toList⟩] := by
    have h2' : Errors.Warnings ([⟨"test".toList, 0, ErrorTypeWarning, "testing-UUID".toList⟩,
        ⟨"message 2".toList, 0, ErrorTypeNonFatal, "testing-UUID".toList⟩].map some)
        = .ok [some ⟨"test".toList, 0, ErrorTypeWarning, "testing-UUID".toList⟩] := rfl
    rw [h2'] at h2
    exact (Except.ok.inj h2).symm
  have h5 := (h4 (by
    intro m hm
    simp only [List.mem_cons, List.mem_singleton, List.not_mem_nil, or_false] at hm
    rcases hm with rfl | rfl
    · exact Or.inr (Or.inr rfl)
    · exact Or.inr (Or.inl rfl))).2
  rw [h5, hw]
  rfl

/-! ## The round trip on well-formed records -/

theorem KindReadable_of_recognised (k : Str)
    (h : k = "FATAL_ERROR".toList ∨ k = "NON_FATAL_ERROR".toList ∨ k = "WARNING".toList) :
    KindReadable k := by
  rcases h with rfl | rfl | rfl <;> decide

/-- Decoding the rendering of a non-empty list of records with readable kinds and
messages, 64-bit codes and one readable request id gives the list back. -/
theorem decode_rendering_of_records (es : List Error) (u : Str) (hne : es ≠ [])
    (hid : ∀ e ∈ es, e.RequestUUID = u)
    (hkind : ∀ e ∈ es, KindReadable e.Typ)
    (hmsg : ∀ e ∈ es, MessageReadable e.Message)
    (hcode : ∀ e ∈ es, -2 ^ 63 ≤ e.Code ∧ e.Code < 2 ^ 63)
    (hu : RequestIdReadable u) :
    ErrorsFromString (Join (es.map Error.ErrorWithoutUUID) "; ".toList
        ++ "; request uuid: ".toList ++ (es.getLast?.map Error.RequestUUID).getD [])
      = (es.map some, none) := by
  have hlast : (es.getLast?.map Error.RequestUUID).getD [] = u := by
    cases hl : es.getLast? with
    | none => exact absurd (List.getLast?_eq_none_iff.1 hl) hne
    | some x => simpa using hid x (List.mem_of_getLast?_eq_some hl)
  have hcore := ErrorsFromString_rendering (es.map (fun e => (e, FormatInt e.Code))) u
    (by simpa using hne)
    (by
      intro r hr
      obtain ⟨e, he, rfl⟩ := List.mem_map.1 hr
      exact ⟨hkind e he, Atoi_FormatInt _ (hcode e he).1 (hcode e he).2, hmsg e he⟩)
    hu.1
  have htrim : TrimLeft u "request uuid: ".toList = u := TrimLeft_of_head _ _ hu.2
  have hmap : (es.map (fun e => (e, FormatInt e.Code))).map
        (fun r => segmentText r.1.Typ r.2 r.1.Message)
      = es.map Error.ErrorWithoutUUID := by
    simp [List.map_map, Function.comp_def, segmentText, Error.ErrorWithoutUUID]
  rw [hmap, htrim] at hcore
  rw [hlast, hcore]
  congr 1
  rw [List.map_map]
  apply List.map_congr_left
  intro e he
  have := hid e he
  simp only [Function.comp_apply]
  rw [← this]

/-- C17: for every non-empty list of records such that (a) every kind is
FATAL_ERROR, NON_FATAL_ERROR or WARNING, (b) every message holds no "; ", does not
start with a space and has no word "code:" or "message:", and (c) all records
share one request id that holds no "; " and does not start with a character of
"request uuid: ", `ErrorsFromString(list.Error())` returns no failure and the
original list, for every code of the 64-bit `int` type. -/
theorem roundtrip_wellformed (es : List Error) (u : Str) (hne : es ≠ [])
    (hkind : ∀ e ∈ es, e.Typ = "FATAL_ERROR".toList ∨ e.Typ = "NON_FATAL_ERROR".toList
      ∨ e.Typ = "WARNING".toList)
    (hmsg : ∀ e ∈ es, Contains e.Message "; ".toList = false ∧ e.Message.head? ≠ some ' '
      ∧ "code:".toList ∉ Split e.Message " ".toList
      ∧ "message:".toList ∉ Split e.Message " ".toList)
    (hid : ∀ e ∈ es, e.RequestUUID = u)
    (hu : Contains u "; ".toList = false
      ∧ ∀ c, u.head? = some c → c ∉ "request uuid: ".toList)
    (hcode : ∀ e ∈ es, -2 ^ 63 ≤ e.Code ∧ e.Code < 2 ^ 63) :
    ∃ s, Errors.Error (es.map some) = .ok s ∧ ErrorsFromString s = (es.map some, none) :=
  ⟨_, Errors_Error_map_some es,
    decode_rendering_of_records es u hne hid
      (fun e he => KindReadable_of_recognised _ (hkind e he)) hmsg hcode hu⟩

/-- C17 at the two records of the repository's test, the second with a negative
code and kind WARNING. -/
theorem roundtrip_wellformed_witness :
    ∃ s, Errors.Error ([⟨"featuredMessageUrl: The url provided is invalid.".toList, 2106,
            "FATAL_ERROR".toList, "3b03b517-51c5-4a64-8285-a3466ce875f6".toList⟩,
          ⟨"websiteUrl: The url provided is invalid.".toList, -2103,
            "WARNING".toList, "3b03b517-51c5-4a64-8285-a3466ce875f6".toList⟩].map some) = .ok s
      ∧ ErrorsFromString s
        = ([⟨"featuredMessageUrl: The url provided is invalid.".toList, 2106,
            "FATAL_ERROR".toList, "3b03b517-51c5-4a64-8285-a3466ce875f6".toList⟩,
          ⟨"websiteUrl: The url provided is invalid.".toList, -2103,
            "WARNING".toList, "3b03b517-51c5-4a64-8285-a3466ce875f6".toList⟩].map some, none) :=
  roundtrip_wellformed
    [⟨"featuredMessageUrl: The url provided is invalid.".toList, 2106,
        "FATAL_ERROR".toList, "3b03b517-51c5-4a64-8285-a3466ce875f6".toList⟩,
      ⟨"websiteUrl: The url provided is invalid.".toList, -2103,
        "WARNING".toList, "3b03b517-51c5-4a64-8285-a3466ce875f6".toList⟩]
    "3b03b517-51c5-4a64-8285-a3466ce875f6".toList (by simp)
    (by
      intro e he
      simp only [List.mem_cons, List.mem_singleton, List.not_mem_nil, or_false] at he
      rcases he with rfl | rfl
      · exact Or.inl rfl
      · exact Or.inr (Or.inr rfl))
    (by
      intro e he
      simp only [List.mem_cons, List.mem_singleton, List.not_mem_nil, or_false] at he
      rcases he with rfl | rfl <;> decide)
    (by
      intro e he
      simp only [List.mem_cons, List.mem_singleton, List.not_mem_nil, or_false] at he
      rcases he with rfl | rfl <;> rfl)
    (by decide)
    (by
      intro e he
      simp only [List.mem_cons, List.mem_singleton, List.not_mem_nil, or_false] at he
      rcases he with rfl | rfl <;> norm_num)

/-! ## The words of a decoded message -/

/-- A word of a string holds no space. -/
theorem not_mem_space_of_mem_Split (s w : Str) (h : w ∈ Split s [' ']) : ' ' ∉ w := by
  induction s generalizing w with
  | nil =>
    rw [Split_space_nil] at h
    simp only [List.mem_singleton] at h
    subst h
    simp
  | cons c cs ih =>
    by_cases hc : c = ' '
    · subst hc
      rw [Split_space_cons_space] at h
      rcases List.mem_cons.1 h with h | h
      · subst h; simp
      · exact ih w h
    · rw [Split_space_cons_other _ _ hc] at h
      rcases List.mem_cons.1 h with h | h
      · subst h
        intro hm
        rcases List.mem_cons.1 hm with h1 | h1
        · exact hc h1.symm
        · exact ih _ (by simp [Split]) h1
      · exact ih w (by simp [Split, h])

/-- The words of a part after the loop of `splitStrAtWord` has added a word to it
are the words it had and the new word. -/
theorem words_addWord (Q : Str → Prop) (acc w : Str)
    (hacc : ∀ x ∈ Split acc [' '], Q x) (hw : ' ' ∉ w) (hQ : Q w) :
    ∀ x ∈ Split (addWord acc w) [' '], Q x := by
  intro x hx
  by_cases h : acc = []
  · subst h
    have h1 : addWord [] w = w := by simp [addWord]
    rw [h1, Split_space_of_not_mem w hw] at hx
    simp only [List.mem_singleton] at hx
    subst hx
    exact hQ
  · have h1 : addWord acc w = acc ++ ' ' :: w := by simp [addWord, h]
    rw [h1, Split_space_append, Split_space_of_not_mem w hw] at hx
    rcases List.mem_append.1 hx with h2 | h2
    · exact hacc x h2
    · simp only [List.mem_singleton] at h2
      subst h2
      exact hQ

theorem words_splitStep (Q : Str → Prop) (word w : Str) (st : SplitState)
    (hb : ∀ x ∈ Split st.before [' '], Q x) (ha : ∀ x ∈ Split st.after [' '], Q x)
    (hw : ' ' ∉ w) (hQ : w ≠ word → Q w) :
    (∀ x ∈ Split (splitStep word st w).before [' '], Q x)
      ∧ (∀ x ∈ Split (splitStep word st w).after [' '], Q x) := by
  unfold splitStep
  by_cases h1 : w = word
  · simp only [h1, if_true]
    exact ⟨hb, ha⟩
  · simp only [h1, if_false]
    by_cases h2 : st.found = true
    · simp only [h2, if_true]
      exact ⟨hb, words_addWord Q st.after w ha hw (hQ h1)⟩
    · simp only [h2, if_false]
      exact ⟨words_addWord Q st.before w hb hw (hQ h1), ha⟩

theorem words_foldl_splitStep (Q : Str → Prop) (word : Str) (ws : List Str) (st : SplitState)
    (hb : ∀ x ∈ Split st.before [' '], Q x) (ha : ∀ x ∈ Split st.after [' '], Q x)
    (hws : ∀ w ∈ ws, ' ' ∉ w ∧ (w ≠ word → Q w)) :
    (∀ x ∈ Split (ws.foldl (splitStep word) st).before [' '], Q x)
      ∧ (∀ x ∈ Split (ws.foldl (splitStep word) st).after [' '], Q x) := by
  induction ws generalizing st with
  | nil => exact ⟨hb, ha⟩
  | cons w ws ih =>
    obtain ⟨h1, h2⟩ := hws w (List.mem_cons_self _ _)
    obtain ⟨hb', ha'⟩ := words_splitStep Q word w st hb ha h1 h2
    exact ih _ hb' ha' (fun x hx => hws x (List.mem_cons_of_mem _ hx))

/-- Every word of the two parts `splitStrAtWord` returns is the empty word or a
word of the input other than the marker. -/
theorem words_splitStrAtWord (Q : Str → Prop) (str word : Str) (hnil : Q [])
    (h : ∀ w ∈ Split str [' '], w ≠ word → Q w) :
    (∀ x ∈ Split (splitStrAtWord str word).1 [' '], Q x)
      ∧ (∀ x ∈ Split (splitStrAtWord str word).2 [' '], Q x) := by
  have h0 : ∀ x ∈ Split ([] : Str) [' '], Q x := by
    intro x hx
    rw [Split_space_nil] at hx
    simp only [List.mem_singleton] at hx
    subst hx
    exact hnil
  exact words_foldl_splitStep Q word (Split str [' ']) ⟨false, [], []⟩ h0 h0
    (fun w hw => ⟨not_mem_space_of_mem_Split str w hw, h w hw⟩)

/-- No word of the message `errorFromString` returns is "code:" or "message:". -/
theorem errorFromString_message_words (seg : Str) (e : Error)
    (h : errorFromString seg = .ok e) :
    "code:".toList ∉ Split e.Message [' '] ∧ "message:".toList ∉ Split e.Message [' '] := by
  have h1 := (words_splitStrAtWord (fun x => x ≠ "code:".toList)
    (TrimLeft seg "type: ".toList) "code:".toList (by decide) (fun w _ hw => hw)).2
  have h2 := (words_splitStrAtWord (fun x => x ≠ "code:".toList ∧ x ≠ "message:".toList)
    (splitStrAtWord (TrimLeft seg "type: ".toList) "code:".toList).2 "message:".toList
    (by decide) (fun w hw hne => ⟨h1 w hw, hne⟩)).2
  rw [errorFromString_eq] at h
  cases hA : Atoi (codePart seg) with
  | error err => rw [hA] at h; cases h
  | ok c =>
    rw [hA] at h
    have he := Except.ok.inj h
    subst he
    exact ⟨fun hm => (h2 _ hm).1 rfl, fun hm => (h2 _ hm).2 rfl⟩

theorem ErrorsFromStringLoop_message_words (uuid : Str) (segs : List Str) (acc : Errors)
    (hacc : ∀ d, some d ∈ acc →
      "code:".toList ∉ Split d.Message [' '] ∧ "message:".toList ∉ Split d.Message [' ']) :
    ∀ d, some d ∈ (ErrorsFromStringLoop uuid segs acc).1 →
      "code:".toList ∉ Split d.Message [' '] ∧ "message:".toList ∉ Split d.Message [' '] := by
  induction segs generalizing acc with
  | nil => simpa [ErrorsFromStringLoop] using hacc
  | cons seg rest ih =>
    rw [ErrorsFromStringLoop]
    cases hE : errorFromString seg with
    | error err => intro d hd; simp at hd
    | ok errObj =>
      simp only
      apply ih
      intro d hd
      rcases List.mem_append.1 hd with h1 | h1
      · exact hacc d h1
      · simp only [List.mem_singleton, Option.some.injEq] at h1
        subst h1
        exact errorFromString_message_words seg errObj hE

/-- No message decoded by `ErrorsFromString`, from any input, has "code:" or
"message:" among its words. -/
theorem ErrorsFromString_message_words (s : Str) (d : Error)
    (h : some d ∈ (ErrorsFromString s).1) :
    "code:".toList ∉ Split d.Message " ".toList
      ∧ "message:".toList ∉ Split d.Message " ".toList :=
  ErrorsFromStringLoop_message_words _ _ [] (fun _ hd => by simp at hd) d h

/-- C18: for every list of records in which some message has "code:" or
"message:" among its space-delimited words, `ErrorsFromString(list.Error())` does
not return the original list, because no message that `ErrorsFromString` decodes,
from any input, has one of these words; the message "bad code: 5" is decoded as
"bad 5". -/
theorem marker_words_break_roundtrip (es : List Error)
    (hmark : ∃ e ∈ es, "code:".toList ∈ Split e.Message " ".toList
      ∨ "message:".toList ∈ Split e.Message " ".toList) :
    (∃ r, Errors.Error (es.map some) = .ok r ∧ (ErrorsFromString r).1 ≠ es.map some)
    ∧ (∀ s d, some d ∈ (ErrorsFromString s).1 →
        "code:".toList ∉ Split d.Message " ".toList
          ∧ "message:".toList ∉ Split d.Message " ".toList)
    ∧ (Errors.Error [some ⟨"bad code: 5".toList, 1, ErrorTypeFatal, "42".toList⟩]
          = .ok "type: FATAL_ERROR code: 1 message: bad code: 5; request uuid: 42".toList
        ∧ ErrorsFromString
            "type: FATAL_ERROR code: 1 message: bad code: 5; request uuid: 42".toList
          = ([some ⟨"bad 5".toList, 1, ErrorTypeFatal, "42".toList⟩], none)) := by
  refine ⟨⟨_, Errors_Error_map_some es, ?_⟩, ErrorsFromString_message_words, by rfl, by rfl⟩
  intro heq
  obtain ⟨e, he, hw⟩ := hmark
  have hmem : some e ∈ (ErrorsFromString (Join (es.map Error.ErrorWithoutUUID) "; ".toList
      ++ "; request uuid: ".toList ++ (es.getLast?.map Error.RequestUUID).getD [])).1 := by
    rw [heq]
    exact List.mem_map.2 ⟨e, he, rfl⟩
  obtain ⟨h1, h2⟩ := ErrorsFromString_message_words _ e hmem
  rcases hw with hw | hw
  · exact h1 hw
  · exact h2 hw

/-- C18 at the record with message "bad code: 5": decoding its rendering does not
give the record back. -/
theorem marker_words_break_roundtrip_witness :
    ∃ r, Errors.Error ([⟨"bad code: 5".toList, 1, ErrorTypeFatal, "42".toList⟩].map some)
        = .ok r
      ∧ (ErrorsFromString r).1
        ≠ [⟨"bad code: 5".toList, 1, ErrorTypeFatal, "42".toList⟩].map some :=
  (marker_words_break_roundtrip [⟨"bad code: 5".toList, 1, ErrorTypeFatal, "42".toList⟩]
    ⟨_, List.mem_singleton.2 rfl, Or.inl (by decide)⟩).1

end Yext
